import Mathlib

/-!
Verification development for the TAPS cache-backed rebuild pipeline and
analytics engine (src/api/main.py).

The Python source is shallowly embedded:
* Python numbers (ints and floats) are modelled as exact rationals `ℚ`;
  `round(x, n)` is modelled by `roundTo n` (round half to even, as Python's
  `round`), `round(x)` by `pyRound`, and `int(x)` by `pyInt` (truncation).
* Redis is modelled by an explicit `CacheState` record threaded through the
  pipeline functions; network fetches are modelled by a `RebuildEnv` record
  that supplies each upstream response.  A Python call that may raise is
  modelled with `Except Unit`.
* Python dicts are modelled as insertion-ordered association lists
  (`List (κ × α)`), with `dictUpd` reproducing the
  `if key not in d: d[key] = init` / in-place-update idiom.
* Dates are day numbers (`ℤ`); `datetime.strptime(s, "%Y-%m-%d")` is
  `parseDate`, and ISO timestamps remain strings compared lexicographically,
  exactly as the source compares `createdAt` values.
-/

attribute [local semireducible] Rat.add Rat.mul Rat.inv Rat.sub Rat.ofScientific

/-- Lowercasing (`str.lower()`), on the underlying character list so that
concrete values evaluate. -/
def strLower (s : String) : String := ⟨s.data.map Char.toLower⟩

/-- `str.strip()`: drop leading and trailing whitespace. -/
def strTrim (s : String) : String :=
  ⟨((s.data.dropWhile Char.isWhitespace).reverse.dropWhile Char.isWhitespace).reverse⟩

/-- Python slicing `s[:n]`. -/
def strTake (s : String) (n : ℕ) : String := ⟨s.data.take n⟩

/-- Helper of `splitChar`. -/
def splitCharAux (c : Char) : List Char → List Char → List String
  | [], cur => [⟨cur.reverse⟩]
  | x :: xs, cur =>
    if x = c then (⟨cur.reverse⟩ : String) :: splitCharAux c xs []
    else splitCharAux c xs (x :: cur)

/-- `s.split(c)` for a single-character separator. -/
def splitChar (c : Char) (s : String) : List String := splitCharAux c s.data []

/-- Helper of `strLtB`: lexicographic comparison of character lists. -/
def charsLt : List Char → List Char → Bool
  | [], [] => false
  | [], _ :: _ => true
  | _ :: _, [] => false
  | a :: as, b :: bs => if a < b then true else if b < a then false else charsLt as bs

/-- Python's `<` on strings: lexicographic comparison by code point.  Used for
both ISO-timestamp cursor comparison and `sorted(...)` of store names. -/
def strLtB (a b : String) : Bool := charsLt a.data b.data

/-- Python's `<=` on strings. -/
def strLeB (a b : String) : Bool := !strLtB b a

/-- Round half to even, as Python's builtin `round` on exact values. -/
def pyRound (x : ℚ) : ℤ :=
  let n := ⌊x⌋
  let r := x - n
  if r < 1/2 then n
  else if 1/2 < r then n + 1
  else if n % 2 = 0 then n else n + 1

/-- Python's `round(x, d)` for `d` decimal places. -/
def roundTo (d : ℕ) (x : ℚ) : ℚ := (pyRound (x * 10 ^ d) : ℚ) / 10 ^ d

/-- Python's `int(x)`: truncation toward zero. -/
def pyInt (x : ℚ) : ℤ := if 0 ≤ x then ⌊x⌋ else ⌈x⌉

/-- Parse a decimal numeral, as the numeric part of `datetime.strptime`. -/
def parseNatDigits (s : String) : Option ℕ :=
  if s.data.length ≠ 0 ∧ s.data.all Char.isDigit then
    some (s.data.foldl (fun n ch => 10 * n + (ch.toNat - '0'.toNat)) 0)
  else none

/-- Gregorian leap year. -/
def isLeap (y : ℤ) : Bool := (y % 4 == 0 && y % 100 != 0) || y % 400 == 0

/-- Length of month `m` in year `y`. -/
def monthLen (y : ℤ) (m : ℕ) : ℕ :=
  if m = 2 then (if isLeap y then 29 else 28)
  else if m = 4 ∨ m = 6 ∨ m = 9 ∨ m = 11 then 30 else 31

/-- Day number of a civil date (Howard Hinnant's days-from-civil algorithm);
the embedding of `datetime.date` as an integer. -/
def daysFromCivil (y : ℤ) (m d : ℕ) : ℤ :=
  let y' := if m ≤ 2 then y - 1 else y
  let era := (if 0 ≤ y' then y' else y' - 399) / 400
  let yoe := y' - era * 400
  let mp : ℤ := ((m : ℤ) + 9) % 12
  let doy := (153 * mp + 2) / 5 + (d : ℤ) - 1
  let doe := yoe * 365 + yoe / 4 - yoe / 100 + doy
  era * 146097 + doe

/-- `datetime.strptime(s, "%Y-%m-%d").date()` as an `Option` day number;
`none` models the `ValueError` path. -/
def parseDate (s : String) : Option ℤ :=
  match splitChar '-' s with
  | [ys, ms, ds] =>
    match parseNatDigits ys, parseNatDigits ms, parseNatDigits ds with
    | some y, some m, some d =>
      if 1 ≤ m ∧ m ≤ 12 ∧ 1 ≤ d ∧ d ≤ monthLen (y : ℤ) m then
        some (daysFromCivil (y : ℤ) m d)
      else none
    | _, _, _ => none
  | _ => none

section Dict

variable {κ α β : Type} [DecidableEq κ]

/-- First-match lookup on an insertion-ordered association list (`d.get(k)`). -/
def dictGet : List (κ × α) → κ → Option α
  | [], _ => none
  | (k', v) :: rest, k => if k = k' then some v else dictGet rest k

/-- The Python idiom `if k not in d: d[k] = v0` followed by an in-place update
`f` of `d[k]`: if `k` is absent, append `(k, v0)` (with `f` already folded into
`v0` by the caller when the source applies the update unconditionally);
otherwise update the stored value in place. -/
def dictUpd : List (κ × α) → κ → α → (α → α) → List (κ × α)
  | [], k, v0, _ => [(k, v0)]
  | (k', v) :: rest, k, v0, f =>
    if k = k' then (k', f v) :: rest else (k', v) :: dictUpd rest k v0 f

/-- `d[k] = v` (overwrite or append). -/
def dictSet (l : List (κ × α)) (k : κ) (v : α) : List (κ × α) :=
  dictUpd l k v (fun _ => v)

/-- A loop `for b in l:` that groups values of `key b` into a dict, creating a
fresh entry with `fresh b` on first sight and updating with `seen b` after. -/
def dfold (key : β → κ) (fresh : β → α) (seen : β → α → α)
    (acc : List (κ × α)) (l : List β) : List (κ × α) :=
  l.foldl (fun acc b => dictUpd acc (key b) (fresh b) (seen b)) acc

/-- Effect on one key of replaying the `seen` updates of a list. -/
def applySeen (key : β → κ) (seen : β → α → α) (k : κ) : α → List β → α
  | v, [] => v
  | v, b :: bs => applySeen key seen k (if key b = k then seen b v else v) bs

/-- Value built for key `k` by a `dfold` that starts without that key. -/
def buildNew (key : β → κ) (fresh : β → α) (seen : β → α → α) (k : κ) :
    List β → Option α
  | [] => none
  | b :: bs =>
    if key b = k then some (applySeen key seen k (fresh b) bs)
    else buildNew key fresh seen k bs

end Dict

-- ─── Constants (CONFIG section of the source) ─────────────────────────────

def WOS_DEFAULT : ℚ := 5/2
def DAYS_DEFAULT : ℕ := 31
def PAGE_SIZE : ℕ := 500
def REBUILD_LOCK_TTL : ℕ := 300

/-- One COGS override rule: brand + category → corrected unit cost. -/
structure CogsRule where
  brand : String
  cat : String
  uc : ℚ
deriving DecidableEq, Repr

/-- The `COGS_OVERRIDES` table of the source. -/
def COGS_OVERRIDES : List CogsRule :=
  [⟨"Fade", "Carts", 1065/100⟩,
   ⟨"Fade", "Disposables", 1248/100⟩,
   ⟨"Retreat", "Carts", 1057/100⟩,
   ⟨"Retreat", "Disposables", 1240/100⟩,
   ⟨"Green & Gold", "Flower", 863/100⟩,
   ⟨"Pistola", "Flower", 863/100⟩,
   ⟨"Hustle & Grow", "Flower", 678/100⟩,
   ⟨"H&G", "Flower", 678/100⟩,
   ⟨"Haus", "Flower", 678/100⟩]

/-- `get_cogs_override(brand, cat, product_name)`: first rule whose brand and
category match case-insensitively (the product name is unused in the source). -/
def get_cogs_override (brand cat _productName : String) : Option ℚ :=
  let brand_l := strLower (strTrim brand)
  let cat_l := strLower cat
  (COGS_OVERRIDES.find? fun r =>
    decide (strLower r.brand = brand_l ∧ strLower r.cat = cat_l)).map (·.uc)

-- ─── Data model ───────────────────────────────────────────────────────────

/-- One cleaned sales line item, as produced by `pull_store_sales`. -/
structure SaleItem where
  s : String
  vid : String
  q : ℚ
  tp : ℚ
  td : ℚ
  nr : ℚ
  tc : ℚ
  dt : String
deriving DecidableEq, Repr

/-- One per-(store, item) sales aggregate entry, as produced by
`aggregate_sales` (the `wv` key is added by the final pass of the source). -/
structure AggEntry where
  s : String
  vid : String
  q : ℚ
  tp : ℚ
  td : ℚ
  nr : ℚ
  tc : ℚ
  w1 : ℚ
  w2 : ℚ
  w3 : ℚ
  w4 : ℚ
  wv : ℚ
deriving DecidableEq, Repr

/-- Per-store totals entry of `aggregate_sales`. -/
structure StoreTot where
  nr : ℚ
  tp : ℚ
  td : ℚ
  tc : ℚ
  q : ℚ
deriving DecidableEq, Repr

/-- One normalized inventory row (output shape of `pull_inventory`). -/
structure InvItem where
  s : String
  vid : String
  p : String
  cat : String
  b : String
  sup : String
  typ : String
  strn : String
  oh : ℚ
  uc : ℚ
  up : ℚ
  ic : ℚ
  ir : ℚ
deriving DecidableEq, Repr

-- ─── SalesAggregator (`aggregate_sales`) ──────────────────────────────────

/-- Key of the aggregation dict: `(item["s"], item["vid"])`. -/
def salesKey (i : SaleItem) : String × String := (i.s, i.vid)

/-- The zero-initialised aggregation entry for a key (the dict literal the
source creates on first sight of a key; `wv` is set by the final pass). -/
def aggInit (k : String × String) : AggEntry :=
  { s := k.1, vid := k.2, q := 0, tp := 0, td := 0, nr := 0, tc := 0,
    w1 := 0, w2 := 0, w3 := 0, w4 := 0, wv := 0 }

/-- The quantity contributed by one item to each trailing 7-day bucket: the
source's `if d >= w1_start: ... elif ... elif ... elif ...` chain, with an
unparsable or empty date contributing to no bucket. -/
def wqs (today : ℤ) (i : SaleItem) : ℚ × ℚ × ℚ × ℚ :=
  match parseDate i.dt with
  | none => (0, 0, 0, 0)
  | some d =>
    if today - 7 ≤ d then (i.q, 0, 0, 0)
    else if today - 14 ≤ d then (0, i.q, 0, 0)
    else if today - 21 ≤ d then (0, 0, i.q, 0)
    else if today - 28 ≤ d then (0, 0, 0, i.q)
    else (0, 0, 0, 0)

/-- One iteration of the aggregation loop body on the `agg` dict. -/
def aggAdd (today : ℤ) (a : AggEntry) (i : SaleItem) : AggEntry :=
  let w := wqs today i
  { a with
    q := a.q + i.q, tp := a.tp + i.tp, td := a.td + i.td,
    nr := a.nr + i.nr, tc := a.tc + i.tc,
    w1 := a.w1 + w.1, w2 := a.w2 + w.2.1,
    w3 := a.w3 + w.2.2.1, w4 := a.w4 + w.2.2.2 }

/-- One iteration of the aggregation loop body on the `store_totals` dict. -/
def stAdd (t : StoreTot) (i : SaleItem) : StoreTot :=
  { nr := t.nr + i.nr, tp := t.tp + i.tp, td := t.td + i.td,
    tc := t.tc + i.tc, q := t.q + i.q }

/-- The zero store-totals entry. -/
def stZero : StoreTot := ⟨0, 0, 0, 0, 0⟩

/-- `aggregate_sales(raw_items, days)`; `today` embeds
`datetime.now(timezone.utc).date()`.  Returns the aggregated list (each entry
with `wv = q / weeks`) and the per-store totals dict. -/
def aggregate_sales (raw_items : List SaleItem) (days : ℕ) (today : ℤ) :
    List AggEntry × List (String × StoreTot) :=
  let weeks : ℚ := (days : ℚ) / 7
  let pair := raw_items.foldl
    (fun (p : List ((String × String) × AggEntry) × List (String × StoreTot)) i =>
      (dictUpd p.1 (salesKey i) (aggAdd today (aggInit (salesKey i)) i)
        (fun a => aggAdd today a i),
       dictUpd p.2 i.s (stAdd stZero i) (fun t => stAdd t i)))
    ([], [])
  ((pair.1.map Prod.snd).map (fun d => { d with wv := d.q / weeks }), pair.2)

/-- Lookup of an output entry of `aggregate_sales` by its `(s, vid)` key. -/
def entryGet (l : List AggEntry) (k : String × String) : Option AggEntry :=
  l.find? (fun e => decide ((e.s, e.vid) = k))

-- ─── TAPS engine (`run_taps`) ─────────────────────────────────────────────

/-- One product row of the dashboard (`products.append({...})` in the source).
`par` and `tr` are Python ints; `wos` is `None` or a rounded float. -/
structure ProductRow where
  s : String
  p : String
  b : String
  cat : String
  cls : String
  wv : ℚ
  oh : ℚ
  wos : Option ℚ
  par : ℤ
  oq : ℚ
  nr : ℚ
  cogs : ℚ
  mgn : ℚ
  ic : ℚ
  uc : ℚ
  up : ℚ
  sup : String
  w1 : ℚ
  w2 : ℚ
  w3 : ℚ
  w4 : ℚ
  tr : ℤ
  vid : String
deriving DecidableEq, Repr

/-- The global `stats` dict of `run_taps`.  The `period` display string is
modelled by the pair of day numbers it renders
(`now - days` and `now - 1`); `inventory_ts`/`sales_ts` carry the values read
from the cache (`taps:inventory_ts` and `taps:sales_meta["ts"]`). -/
structure Stats where
  period : ℤ × ℤ
  source : String
  stores : ℕ
  net_revenue : ℚ
  gross_sales : ℚ
  discounts : ℚ
  cogs : ℚ
  gross_profit : ℚ
  margin : ℚ
  discount_rate : ℚ
  units_sold : ℤ
  total_products : ℕ
  total_inv_cost : ℚ
  total_inv_units : ℚ
  inventory_ts : Option String
  sales_ts : Option String
deriving DecidableEq, Repr

/-- One per-store rollup of the dashboard (`ss.append({...})`). -/
structure StoreSummary where
  s : String
  rev : ℤ
  cogs : ℤ
  margin : ℚ
  disc : ℤ
  units : ℤ
  products : ℕ
  inv_cost : ℤ
  inv_units : ℚ
  dead_cost : ℤ
  dead_pct : ℚ
  over_cost : ℤ
deriving DecidableEq, Repr

/-- The dashboard snapshot `{"st": ..., "ss": ..., "pd": ...}`; the empty
snapshot has `st = none` (the empty dict). -/
structure DashSnapshot where
  st : Option Stats
  ss : List StoreSummary
  pd : List ProductRow
deriving DecidableEq, Repr

/-- `sales_map = {(e["s"], e["vid"]): e for e in sales}` — a later entry with
the same key overwrites an earlier one. -/
def lastLookup (sales : List AggEntry) (k : String × String) : Option AggEntry :=
  sales.foldl (fun acc e => if (e.s, e.vid) = k then some e else acc) none

/-- `vid_vels`: mean weekly velocity of a variant across all sales entries
carrying it; `none` when the variant occurs in no sales entry. -/
def vidVel (sales : List AggEntry) (vid : String) : Option ℚ :=
  let l := (sales.filter (fun e => decide (e.vid = vid))).map (·.wv)
  if l = [] then none else some (l.sum / (l.length : ℚ))

/-- `store in stores_with_sales`. -/
def storesWithSales (sales : List AggEntry) (store : String) : Bool :=
  sales.any (fun e => decide (e.s = store))

/-- Body of the product loop of `run_taps` for one `(store, vid)` entry of
`inv_map`. -/
def mkProductRow (sales : List AggEntry) (weeks wos_target : ℚ)
    (key : String × String) (inv : InvItem) : ProductRow :=
  let store := key.1
  let vid := key.2
  let sd := lastLookup sales key
  let sold0 : ℚ := match sd with | some e => e.q | none => 0
  let vel0 : ℚ := match sd with | some e => e.wv | none => 0
  let nr : ℚ := match sd with | some e => e.nr | none => 0
  let tc0 : ℚ := match sd with | some e => e.tc | none => 0
  let fallback : Bool :=
    decide (sold0 = 0) && !storesWithSales sales store && (vidVel sales vid).isSome
  let vel := if fallback then (vidVel sales vid).getD 0 else vel0
  let sold := if fallback then vel * weeks else sold0
  let tc_sold := match get_cogs_override inv.b inv.cat inv.p with
    | some u => if 0 < sold then roundTo 2 (sold * u) else tc0
    | none => tc0
  let w1 : ℚ := match sd with | some e => e.w1 | none => 0
  let w2 : ℚ := match sd with | some e => e.w2 | none => 0
  let w3 : ℚ := match sd with | some e => e.w3 | none => 0
  let w4 : ℚ := match sd with | some e => e.w4 | none => 0
  let prior_avg : ℚ := if 0 < w2 + w3 + w4 then (w2 + w3 + w4) / 3 else 0
  let trend : ℤ :=
    if 0 < prior_avg then pyRound ((w1 - prior_avg) / prior_avg * 100)
    else if 0 < w1 then 100 else 0
  let wos_val : Option ℚ := if 0 < vel then some (inv.oh / vel) else none
  let par : ℤ := if 0 < vel then max (pyRound (vel * wos_target)) 0 else 0
  let oq : ℚ := max ((par : ℚ) - inv.oh) 0
  let mgn : ℚ := if 0 < nr then roundTo 1 ((nr - tc_sold) / nr * 100) else 0
  let cls := if 20 ≤ vel then "A" else if 10 ≤ vel then "B"
             else if 3 ≤ vel then "C" else "D"
  { s := store, p := strTake inv.p 55, b := strTake inv.b 20, cat := inv.cat,
    cls := cls, wv := roundTo 2 vel, oh := inv.oh,
    wos := match wos_val with
      | some w => if w ≠ 0 ∧ w < 999 then some (roundTo 1 w) else none
      | none => none,
    par := par, oq := oq, nr := roundTo 2 nr, cogs := roundTo 2 tc_sold,
    mgn := mgn, ic := roundTo 2 inv.ic, uc := inv.uc, up := inv.up,
    sup := strTake inv.sup 30, w1 := w1, w2 := w2, w3 := w3, w4 := w4,
    tr := trend, vid := vid }

/-- First-sight initialisation of a `store_totals_adj` entry: revenue, gross,
discount and units are passed through from the raw per-store totals, the cost
starts at zero. -/
def adjInit (store_totals : List (String × StoreTot)) (sn : String) : StoreTot :=
  let o := (dictGet store_totals sn).getD stZero
  { nr := o.nr, tp := o.tp, td := o.td, tc := 0, q := o.q }

/-- `store_totals_adj[sn]["tc"] += p["cogs"]`. -/
def adjSeen (p : ProductRow) (v : StoreTot) : StoreTot := { v with tc := v.tc + p.cogs }

/-- The `store_totals_adj` dict of `run_taps`: per-store totals with the cost
recomputed bottom-up as the sum of product-row `cogs` values. -/
def store_totals_adj (store_totals : List (String × StoreTot))
    (products : List ProductRow) : List (String × StoreTot) :=
  dfold (·.s) (fun p => adjSeen p (adjInit store_totals p.s)) adjSeen [] products

/-- Insertion into a ≤-sorted list of strings. -/
def insertStr (x : String) : List String → List String
  | [] => [x]
  | y :: ys => if strLeB x y then x :: y :: ys else y :: insertStr x ys

/-- `sorted(...)` over strings (insertion sort, Python code-point order). -/
def sortStrs : List String → List String
  | [] => []
  | x :: xs => insertStr x (sortStrs xs)

/-- Body of the store-summary loop of `run_taps` for one store name. -/
def mkStoreSummary (products : List ProductRow) (adj : List (String × StoreTot))
    (sn : String) : StoreSummary :=
  let sp := products.filter (fun p => decide (p.s = sn))
  let dead := sp.filter (fun p => decide (p.wv = 0))
  let over := sp.filter (fun p =>
    (match p.wos with
     | some w => decide (w ≠ 0) && decide (8 < w)
     | none => false) && decide (0 < p.wv))
  let st := (dictGet adj sn).getD stZero
  let ic := (sp.map (·.ic)).sum
  { s := sn, rev := pyRound st.nr, cogs := pyRound st.tc,
    margin := if 0 < st.nr then roundTo 1 ((st.nr - st.tc) / st.nr * 100) else 0,
    disc := pyRound st.td, units := pyInt st.q, products := sp.length,
    inv_cost := pyRound ic, inv_units := (sp.map (·.oh)).sum,
    dead_cost := pyRound ((dead.map (·.ic)).sum),
    dead_pct := if 0 < ic then roundTo 1 ((dead.map (·.ic)).sum / ic * 100) else 0,
    over_cost := pyRound ((over.map (·.ic)).sum) }

/-- `run_taps(inventory, sales, store_totals, wos_target, days)`.

The three extra parameters embed the impure reads the source performs inside
the function: `invTs` is `redis_get("taps:inventory_ts")`, `salesTs` is
`redis_get("taps:sales_meta")["ts"]`, and `now` is the current day number used
by the `period` display string. -/
def run_taps (inventory : List InvItem) (sales : List AggEntry)
    (store_totals : List (String × StoreTot)) (wos_target : ℚ) (days : ℕ)
    (invTs salesTs : Option String) (now : ℤ) : DashSnapshot :=
  if inventory = [] then ⟨none, [], []⟩ else
  let weeks : ℚ := (days : ℚ) / 7
  let inv_map := dfold (fun i => (i.s, i.vid)) (fun i => i)
    (fun i v => { v with oh := v.oh + i.oh, ic := v.ic + i.ic, ir := v.ir + i.ir })
    [] inventory
  let products := inv_map.map (fun kv => mkProductRow sales weeks wos_target kv.1 kv.2)
  let adj := store_totals_adj store_totals products
  let tnr := (adj.map (fun s => s.2.nr)).sum
  let ttp := (adj.map (fun s => s.2.tp)).sum
  let ttd := (adj.map (fun s => s.2.td)).sum
  let ttc := (adj.map (fun s => s.2.tc)).sum
  let tq := (adj.map (fun s => s.2.q)).sum
  let stats : Stats := {
    period := (now - days, now - 1), source := "Flowhub API (Live)",
    stores := (products.map (·.s)).dedup.length,
    net_revenue := roundTo 2 tnr, gross_sales := roundTo 2 ttp,
    discounts := roundTo 2 ttd, cogs := roundTo 2 ttc,
    gross_profit := roundTo 2 (tnr - ttc),
    margin := if 0 < tnr then roundTo 1 ((tnr - ttc) / tnr * 100) else 0,
    discount_rate := if 0 < ttp then roundTo 1 (ttd / ttp * 100) else 0,
    units_sold := pyInt tq, total_products := products.length,
    total_inv_cost := roundTo 2 ((products.map (·.ic)).sum),
    total_inv_units := (products.map (·.oh)).sum,
    inventory_ts := invTs, sales_ts := salesTs }
  let ss := (sortStrs (products.map (·.s)).dedup).map (mkStoreSummary products adj)
  { st := some stats, ss := ss, pd := products }

/-- Erase from a snapshot exactly the fields whose values come from outside
`run_taps`'s five arguments: the `period` display window and the two cached
timestamps. -/
def stripExternalFields (d : DashSnapshot) : DashSnapshot :=
  { d with st := d.st.map (fun s =>
      { s with period := (0, 0), inventory_ts := none, sales_ts := none }) }

-- ─── Locations, orders, sales sync ────────────────────────────────────────

/-- One retail location record as built by `get_locations`
(`{"_name", "_id", "_iid", "_clean"}`). -/
structure Loc where
  name : String
  lid : String
  iid : String
  clean : String
deriving DecidableEq, Repr

/-- One cart line of an order (`itemsInCart`). -/
structure CartItem where
  vid : String
  q : ℚ
  tp : ℚ
  td : ℚ
  tc : ℚ
deriving DecidableEq, Repr

/-- One upstream order.  `status` is `orderStatus` with `""` modelling a
missing field (the source defaults it to `"sold"`); `createdAt` is the raw ISO
timestamp string. -/
structure Order where
  status : String
  voided : Bool
  createdAt : String
  completedAt : String
  items : List CartItem
deriving DecidableEq, Repr

/-- Upstream behaviour of the order fetch for one location:
`probeFail` — the initial one-row probe returned nothing (`if not data`);
`noOrders` — the probe reported `total == 0` (or every page fetch failed);
`pages os` — the orders accumulated across the paginated loop. -/
inductive SalesFetch where
  | probeFail
  | noOrders
  | pages (os : List Order)

/-- The cancelled/voided filter of the order loop. -/
def orderSkipped (o : Order) : Bool :=
  let status := strLower (if o.status = "" then "sold" else o.status)
  decide (status = "cancelled") || decide (status = "voided") || o.voided

/-- One iteration of the order loop of `pull_store_sales`: accumulates cleaned
line items and the running maximum `createdAt`. -/
def processOrder (storeClean : String) (acc : List SaleItem × String) (o : Order) :
    List SaleItem × String :=
  if orderSkipped o then acc
  else
    let created := o.createdAt
    let odate := strTake (if created ≠ "" then created else o.completedAt) 10
    let last := if decide (created ≠ "") && strLtB acc.2 created then created else acc.2
    (acc.1 ++ o.items.map (fun it =>
      { s := storeClean, vid := it.vid, q := it.q,
        tp := roundTo 2 it.tp, td := roundTo 2 it.td,
        nr := roundTo 2 (it.tp - it.td), tc := roundTo 2 it.tc,
        dt := odate }), last)

/-- `pull_store_sales(loc, start, end, cursor_after)`: returns
`(store_clean, items, last_created)`.  The date window only determines which
orders the upstream returns, so it is absorbed into the `SalesFetch` value. -/
def pull_store_sales (storeClean : String) (cursorAfter : Option String)
    (fetch : SalesFetch) : String × List SaleItem × String :=
  match fetch with
  | .probeFail => (storeClean, [], "")
  | .noOrders => (storeClean, [], cursorAfter.getD "")
  | .pages os =>
    let r := os.foldl (processOrder storeClean) ([], cursorAfter.getD "")
    (storeClean, r.1, r.2)

-- ─── Cache state and environment ──────────────────────────────────────────

/-- The Redis keys the pipeline reads and writes, as one record.  `cursors`
maps a location id to the stored `taps:cursor:<id>` value. -/
structure CacheState where
  locations : Option (List Loc)
  dashboard : Option DashSnapshot
  inventory : Option (List InvItem)
  inventoryTs : Option String
  supplierMap : Option (List (String × String))
  sales : Option (List AggEntry)
  salesStoreTotals : Option (List (String × StoreTot))
  salesMeta : Option String
  progress : Option String
  lock : Option String
  cursors : List (String × String)
deriving DecidableEq, Repr

/-- The upstream/system behaviour of one rebuild run: each fetch result, the
exception switches (a Python call can raise at any point; `invExc`/`salesExc`
make the corresponding phase raise), the clock, and this invocation's lock
token.  `supMap` abstracts the merged supplier map `pull_inventory` persists;
`invFetch` is the normalized inventory list a successful fetch produces
(`none` models `fh_get` returning nothing, in which case nothing is written). -/
structure RebuildEnv where
  locFetch : Option (List Loc)
  invFetch : Option (List InvItem)
  invExc : Bool
  salesExc : Bool
  fetchFor : String → SalesFetch
  supMap : List (String × String)
  today : ℤ
  nowIso : String
  lockId : String

/-- `get_locations()`: cached list if truthy, else fetch, filter and cache. -/
def get_locations (env : RebuildEnv) (σ : CacheState) : CacheState × List Loc :=
  match σ.locations with
  | some L => if L ≠ [] then (σ, L) else
      match env.locFetch with
      | none => (σ, [])
      | some L' => ({σ with locations := some L'}, L')
  | none =>
      match env.locFetch with
      | none => (σ, [])
      | some L' => ({σ with locations := some L'}, L')

/-- `loc.get("_iid") or loc.get("_id")`. -/
def locId (loc : Loc) : String := if loc.iid ≠ "" then loc.iid else loc.lid

/-- `pull_inventory()`: resolve locations, fetch, persist inventory, its
timestamp and the supplier map.  The row-normalization loop is deterministic
in the upstream payload, so `env.invFetch` carries its result directly. -/
def pull_inventory (env : RebuildEnv) (σ : CacheState) :
    CacheState × Except Unit (List InvItem) :=
  if env.invExc then (σ, .error ()) else
  let r := get_locations env σ
  if r.2 = [] then (r.1, .ok []) else
  match env.invFetch with
  | none => (r.1, .ok [])
  | some inv =>
    ({r.1 with
       inventory := some inv, inventoryTs := some env.nowIso,
       supplierMap := some env.supMap}, .ok inv)

/-- `pull_one(loc)` of `pull_sales_all`: cursor freshness check, store fetch,
conditional cursor persist.  Returns the updated cursor dict and the items. -/
def pull_one (incremental : Bool) (env : RebuildEnv)
    (cursors : List (String × String)) (loc : Loc) :
    List (String × String) × List SaleItem :=
  let lid := locId loc
  let cursor := if incremental then dictGet cursors lid else none
  let use_cursor : Option String :=
    match cursor with
    | some c =>
      if c ≠ "" then
        match parseDate (strTake c 10) with
        | some d => if env.today - d ≤ 3 then some c else none
        | none => none
      else none
    | none => none
  let r := pull_store_sales loc.clean use_cursor (env.fetchFor lid)
  (if r.2.2 ≠ "" then dictSet cursors lid r.2.2 else cursors, r.2.1)

/-- The worker loop of `pull_sales_all`: every location is synced, cursor
writes threaded through, items concatenated.  (The thread pool completes in
nondeterministic order; this serialization is one interleaving, and every
claim proved over it quantifies over the fetch results.) -/
def syncLocs (incremental : Bool) (env : RebuildEnv)
    (cursors : List (String × String)) (locs : List Loc) :
    List (String × String) × List SaleItem :=
  locs.foldl (fun p loc =>
    let r := pull_one incremental env p.1 loc
    (r.1, p.2 ++ r.2)) (cursors, [])

/-- `pull_sales_all(days, incremental)`: locations, progress marker, bounded
sync, then either the non-clobber fallback (empty fetch) or aggregation. -/
def pull_sales_all (days : ℕ) (incremental : Bool) (env : RebuildEnv)
    (σ : CacheState) :
    CacheState × Except Unit (List AggEntry × List (String × StoreTot)) :=
  if env.salesExc then (σ, .error ()) else
  let r := get_locations env σ
  if r.2 = [] then (r.1, .ok ([], [])) else
  let σ₂ := {r.1 with progress := some "sales"}
  let sy := syncLocs incremental env σ₂.cursors r.2
  let σ₃ := {σ₂ with cursors := sy.1}
  if sy.2 = [] then
    match σ₃.sales with
    | some l =>
      if l ≠ [] then (σ₃, .ok (l, σ₃.salesStoreTotals.getD []))
      else (σ₃, .ok ([], []))
    | none => (σ₃, .ok ([], []))
  else (σ₃, .ok (aggregate_sales sy.2 days env.today))

/-- `do_rebuild(days, incremental)`: inventory phase (abort on empty), sales
phase, finalizing writes, analytics, dashboard persist, progress cleanup.
The `Except` value carries a mid-pipeline Python exception out to the caller. -/
def do_rebuild (days : ℕ) (incremental : Bool) (env : RebuildEnv)
    (σ : CacheState) : CacheState × Except Unit Bool :=
  let σ₁ := {σ with progress := some "inventory"}
  match pull_inventory env σ₁ with
  | (σ₂, .error e) => (σ₂, .error e)
  | (σ₂, .ok inventory) =>
    if inventory = [] then ({σ₂ with progress := none}, .ok false)
    else
      match pull_sales_all days incremental env σ₂ with
      | (σ₃, .error e) => (σ₃, .error e)
      | (σ₃, .ok (sales_agg, store_totals)) =>
        let σ₄ := {σ₃ with progress := some "finalizing"}
        let σ₅ := {σ₄ with
                    sales := some sales_agg,
                    salesStoreTotals := some store_totals,
                    salesMeta := some env.nowIso}
        let result := run_taps inventory sales_agg store_totals WOS_DEFAULT days
          σ₅.inventoryTs σ₅.salesMeta env.today
        ({σ₅ with dashboard := some result, progress := none}, .ok true)

/-- `_bg_rebuild_locked`: set-if-absent lock acquisition, body with exceptions
swallowed, compare-and-delete release (delete only while the stored token
still equals this invocation's). -/
def bg_rebuild_locked (days : ℕ) (incremental : Bool) (env : RebuildEnv)
    (σ : CacheState) : CacheState :=
  match σ.lock with
  | some _ => σ
  | none =>
    let σ₁ := {σ with lock := some env.lockId}
    let σ₂ := (do_rebuild days incremental env σ₁).1
    if σ₂.lock = some env.lockId then {σ₂ with lock := none} else σ₂

-- ─── Read path (`GET /api/taps`) ──────────────────────────────────────────

/-- Response of the read endpoint: a snapshot, or the warming placeholder. -/
inductive TapsResp where
  | snap (d : DashSnapshot)
  | warming
deriving DecidableEq, Repr

/-- `get_taps(wos, days)`: stale-while-revalidate read.  `invTs`, `salesTs`
and `now` embed the impure reads `run_taps` performs; the returned state
records any write to the default derived-snapshot entry `taps:dashboard`. -/
def get_taps (wos : ℚ) (days : ℕ) (now : ℤ) (σ : CacheState) :
    CacheState × TapsResp :=
  match σ.dashboard with
  | some c =>
    if wos ≠ WOS_DEFAULT then
      match σ.inventory, σ.sales with
      | some inv, some s =>
        if inv ≠ [] then
          (σ, .snap (run_taps inv s (σ.salesStoreTotals.getD []) wos days
            σ.inventoryTs σ.salesMeta now))
        else (σ, .snap c)
      | _, _ => (σ, .snap c)
    else (σ, .snap c)
  | none =>
    match σ.inventory, σ.sales with
    | some inv, some s =>
      if inv ≠ [] ∧ s ≠ [] then
        let r := run_taps inv s (σ.salesStoreTotals.getD []) wos days
          σ.inventoryTs σ.salesMeta now
        ({σ with dashboard := some r}, .snap r)
      else (σ, .warming)
    | _, _ => (σ, .warming)

-- ─── Concrete sample data (used by witnesses and counterexamples) ─────────

/-- A sample normalized inventory row. -/
def invA : InvItem :=
  { s := "A", vid := "v1", p := "Vape1", cat := "Vapes", b := "", sup := "",
    typ := "", strn := "", oh := 20, uc := 5, up := 10, ic := 100, ir := 200 }

/-- A sample cached sales-aggregate entry. -/
def aggA : AggEntry :=
  { s := "A", vid := "v1", q := 56, tp := 0, td := 0, nr := 0, tc := 0,
    w1 := 0, w2 := 0, w3 := 0, w4 := 0, wv := 14 }

/-- A sample cached per-store totals dict. -/
def stA : List (String × StoreTot) := [("A", ⟨10, 12, 2, 3, 5⟩)]

/-- A sample retail location; `locId` resolves to `"LOC1"`. -/
def wLoc : Loc := ⟨"Thrive Store", "LOC1", "", "Store"⟩

/-- A benign rebuild environment: one location, one inventory row, no orders,
no exceptions. -/
def wEnv : RebuildEnv :=
  { locFetch := some [wLoc], invFetch := some [invA], invExc := false,
    salesExc := false, fetchFor := fun _ => .noOrders, supMap := [],
    today := 0, nowIso := "ts0", lockId := "LK1" }

/-- The environment of a rebuild whose sales phase raises mid-pipeline. -/
def salesExcEnv : RebuildEnv := {wEnv with salesExc := true}

/-- A full-window sync environment: the only order in the fetched window is
older than the stored cursor (for instance because the previously-newest order
has since been voided out of the result set). -/
def staleEnv : RebuildEnv :=
  {wEnv with
    fetchFor := fun _ => .pages [⟨"", false, "2025-09-15", "", []⟩],
    today := daysFromCivil 2025 9 30}

/-- An incremental-sync environment whose cursor is two days old. -/
def freshEnv : RebuildEnv := {wEnv with today := daysFromCivil 2025 10 2}

/-- The empty cache. -/
def σEmpty : CacheState :=
  ⟨none, none, none, none, none, none, none, none, none, none, []⟩

/-- A cache holding a non-empty sales aggregate and per-store totals. -/
def σSales : CacheState :=
  {σEmpty with sales := some [aggA], salesStoreTotals := some stA}

/-- A distinctive cached default-parameter dashboard snapshot. -/
def dashC : DashSnapshot := ⟨none, [], []⟩

/-- A cache holding only a dashboard snapshot (raw aggregates expired). -/
def σDash : CacheState := {σEmpty with dashboard := some dashC}

/-- A cache holding raw aggregates but no dashboard snapshot. -/
def σRaw : CacheState :=
  {σEmpty with
    inventory := some [invA], sales := some [aggA], salesStoreTotals := some stA}

/-- A cache whose rebuild lock is held by another invocation. -/
def σLocked : CacheState := {σEmpty with lock := some "other"}

-- ═══ Lemmas ═══════════════════════════════════════════════════════════════

section DictLemmas

variable {κ α β : Type} [DecidableEq κ]

theorem dictUpd_nil (k : κ) (v0 : α) (f : α → α) : dictUpd ([] : List (κ × α)) k v0 f = [(k, v0)] := rfl

theorem dictUpd_cons_eq {k ka : κ} (hk : k = ka) (va : α) (rest : List (κ × α))
    (v0 : α) (f : α → α) :
    dictUpd ((ka, va) :: rest) k v0 f = (ka, f va) :: rest := by
  simp [dictUpd, hk]

theorem dictUpd_cons_ne {k ka : κ} (hk : ¬ k = ka) (va : α) (rest : List (κ × α))
    (v0 : α) (f : α → α) :
    dictUpd ((ka, va) :: rest) k v0 f = (ka, va) :: dictUpd rest k v0 f := by
  simp [dictUpd, hk]

theorem dictGet_dictUpd (l : List (κ × α)) (k : κ) (v0 : α) (f : α → α) (k' : κ) :
    dictGet (dictUpd l k v0 f) k' =
      if k' = k then some ((dictGet l k).elim v0 f) else dictGet l k' := by
  induction l with
  | nil =>
    simp only [dictUpd, dictGet]
    by_cases h : k' = k <;> simp [h]
  | cons a rest ih =>
    obtain ⟨ka, va⟩ := a
    by_cases hk : k = ka
    · subst hk
      by_cases hk' : k' = k <;> simp [dictUpd, dictGet, hk']
    · by_cases hk' : k' = ka
      · subst hk'
        have hne : ¬ k' = k := fun h => hk h.symm
        simp [dictUpd, dictGet, hk, hne]
      · simp [dictUpd, dictGet, hk, hk', ih]

theorem dictGet_dictSet_self (l : List (κ × α)) (k : κ) (v : α) :
    dictGet (dictSet l k v) k = some v := by
  unfold dictSet
  rw [dictGet_dictUpd]
  simp
  cases dictGet l k <;> rfl

theorem dictGet_dfold (key : β → κ) (fresh : β → α) (seen : β → α → α)
    (l : List β) (acc : List (κ × α)) (k : κ) :
    dictGet (dfold key fresh seen acc l) k =
      match dictGet acc k with
      | some v => some (applySeen key seen k v l)
      | none => buildNew key fresh seen k l := by
  induction l generalizing acc with
  | nil => cases h : dictGet acc k <;> simp [dfold, List.foldl, applySeen, buildNew, h]
  | cons b bs ih =>
    have hstep : dfold key fresh seen acc (b :: bs) =
        dfold key fresh seen (dictUpd acc (key b) (fresh b) (seen b)) bs := by
      simp [dfold, List.foldl]
    rw [hstep, ih, dictGet_dictUpd]
    by_cases hk : k = key b
    · rw [if_pos hk, ← hk]
      cases h : dictGet acc k with
      | some v => simp only [Option.elim_some, applySeen, if_pos hk.symm]
      | none => simp only [Option.elim_none, applySeen, buildNew, if_pos hk.symm]
    · rw [if_neg hk]
      have hk' : ¬ key b = k := fun h => hk h.symm
      cases h : dictGet acc k with
      | some v => simp only [applySeen, if_neg hk']
      | none => simp only [buildNew, if_neg hk']

theorem applySeen_eq_foldl (key : β → κ) (seen : β → α → α) (k : κ)
    (l : List β) (v : α) :
    applySeen key seen k v l =
      (l.filter (fun b => decide (key b = k))).foldl (fun v b => seen b v) v := by
  induction l generalizing v with
  | nil => rfl
  | cons b bs ih =>
    by_cases h : key b = k <;> simp [applySeen, List.filter_cons, h, ih]

theorem buildNew_eq (key : β → κ) (fresh : β → α) (seen : β → α → α) (k : κ)
    (l : List β) :
    buildNew key fresh seen k l =
      match l.filter (fun b => decide (key b = k)) with
      | [] => none
      | b :: bs => some (bs.foldl (fun v b' => seen b' v) (fresh b)) := by
  induction l with
  | nil => rfl
  | cons b bs ih =>
    by_cases h : key b = k <;>
      simp [buildNew, h, List.filter_cons, applySeen_eq_foldl, ih]

theorem dictGet_dfold_keyed (key : β → κ) (fresh : β → α) (seen : β → α → α)
    (init : κ → α) (hfresh : ∀ b, fresh b = seen b (init (key b)))
    (l : List β) (k : κ) :
    dictGet (dfold key fresh seen [] l) k =
      match l.filter (fun b => decide (key b = k)) with
      | [] => none
      | fl => some (fl.foldl (fun v b => seen b v) (init k)) := by
  rw [dictGet_dfold]
  simp only [dictGet]
  rw [buildNew_eq]
  cases h : l.filter (fun b => decide (key b = k)) with
  | nil => rfl
  | cons b bs =>
    have hb : b ∈ l.filter (fun b => decide (key b = k)) := by
      rw [h]; exact List.mem_cons_self b bs
    have hkb : key b = k := by
      have := (List.mem_filter.mp hb).2
      simpa using this
    simp [hkb, List.foldl, hfresh b]

theorem mem_dictUpd {l : List (κ × α)} {k : κ} {v0 : α} {f : α → α} {e : κ × α}
    (h : e ∈ dictUpd l k v0 f) : e.1 = k ∨ ∃ v, (e.1, v) ∈ l := by
  induction l with
  | nil =>
    rw [dictUpd_nil, List.mem_singleton] at h
    left; rw [h]
  | cons a rest ih =>
    obtain ⟨ka, va⟩ := a
    by_cases hk : k = ka
    · rw [dictUpd_cons_eq hk] at h
      rcases List.mem_cons.mp h with h | h
      · left; rw [h, hk]
      · right; exact ⟨e.2, List.mem_cons_of_mem _ (by simpa using h)⟩
    · rw [dictUpd_cons_ne hk] at h
      rcases List.mem_cons.mp h with h | h
      · right; exact ⟨va, by rw [h]; exact List.mem_cons_self _ _⟩
      · rcases ih h with h' | ⟨v, hv⟩
        · left; exact h'
        · right; exact ⟨v, List.mem_cons_of_mem _ hv⟩

theorem mem_dfold_key {key : β → κ} {fresh : β → α} {seen : β → α → α}
    {l : List β} {acc : List (κ × α)} {e : κ × α}
    (h : e ∈ dfold key fresh seen acc l) :
    (∃ v, (e.1, v) ∈ acc) ∨ e.1 ∈ l.map key := by
  induction l generalizing acc with
  | nil => exact Or.inl ⟨e.2, by simpa [dfold] using h⟩
  | cons b bs ih =>
    have hstep : dfold key fresh seen acc (b :: bs) =
        dfold key fresh seen (dictUpd acc (key b) (fresh b) (seen b)) bs := by
      simp [dfold, List.foldl]
    rw [hstep] at h
    rcases ih h with ⟨v, hv⟩ | h'
    · rcases mem_dictUpd hv with h'' | ⟨v', hv'⟩
      · right
        have he1 : e.1 = key b := h''
        rw [he1]
        exact List.mem_map_of_mem _ (List.mem_cons_self b bs)
      · left; exact ⟨v', hv'⟩
    · right
      rcases List.mem_map.mp h' with ⟨a, ha, hae⟩
      exact List.mem_map.mpr ⟨a, List.mem_cons_of_mem _ ha, hae⟩

theorem dictUpd_entries_inv {P : κ → α → Prop} {l : List (κ × α)} {k : κ}
    {v0 : α} {f : α → α}
    (hl : ∀ e ∈ l, P e.1 e.2) (hv0 : P k v0) (hf : ∀ v, P k v → P k (f v)) :
    ∀ e ∈ dictUpd l k v0 f, P e.1 e.2 := by
  induction l with
  | nil =>
    intro e he
    rw [dictUpd_nil, List.mem_singleton] at he
    rw [he]; exact hv0
  | cons a rest ih =>
    obtain ⟨ka, va⟩ := a
    intro e he
    by_cases hk : k = ka
    · rw [dictUpd_cons_eq hk] at he
      rcases List.mem_cons.mp he with he | he
      · rw [he]
        have : P k (f va) := hf va (by rw [hk]; exact hl (ka, va) (by simp))
        rw [← hk]; exact this
      · exact hl e (List.mem_cons_of_mem _ he)
    · rw [dictUpd_cons_ne hk] at he
      rcases List.mem_cons.mp he with he | he
      · rw [he]; exact hl (ka, va) (by simp)
      · exact ih (fun e' he' => hl e' (List.mem_cons_of_mem _ he')) e he

theorem dfold_entries_inv {P : κ → α → Prop} {key : β → κ} {fresh : β → α}
    {seen : β → α → α}
    (hfresh : ∀ b, P (key b) (fresh b))
    (hseen : ∀ b k v, P k v → P k (seen b v))
    {acc : List (κ × α)} (hacc : ∀ e ∈ acc, P e.1 e.2) (l : List β) :
    ∀ e ∈ dfold key fresh seen acc l, P e.1 e.2 := by
  induction l generalizing acc with
  | nil => simpa [dfold] using hacc
  | cons b bs ih =>
    have hstep : dfold key fresh seen acc (b :: bs) =
        dfold key fresh seen (dictUpd acc (key b) (fresh b) (seen b)) bs := by
      simp [dfold, List.foldl]
    rw [hstep]
    exact ih (dictUpd_entries_inv hacc (hfresh b) (fun v hv => hseen b (key b) v hv))

end DictLemmas

section AggLemmas

theorem foldl_perm_of_comm {β γ : Type} {f : γ → β → γ}
    (hf : ∀ c a b, f (f c a) b = f (f c b) a)
    {l₁ l₂ : List β} (h : l₁.Perm l₂) : ∀ c, l₁.foldl f c = l₂.foldl f c := by
  induction h with
  | nil => intro c; rfl
  | cons x _ ih => intro c; simp only [List.foldl]; exact ih _
  | swap x y l => intro c; simp only [List.foldl]; rw [hf]
  | trans _ _ ih₁ ih₂ => intro c; rw [ih₁ c, ih₂ c]

theorem aggAdd_comm (today : ℤ) (a : AggEntry) (i j : SaleItem) :
    aggAdd today (aggAdd today a i) j = aggAdd today (aggAdd today a j) i := by
  simp only [aggAdd, AggEntry.mk.injEq, true_and, and_true]
  refine ⟨?_, ?_, ?_, ?_, ?_, ?_, ?_, ?_, ?_⟩ <;> ring

theorem stAdd_comm (t : StoreTot) (i j : SaleItem) :
    stAdd (stAdd t i) j = stAdd (stAdd t j) i := by
  simp only [stAdd, StoreTot.mk.injEq]
  refine ⟨?_, ?_, ?_, ?_, ?_⟩ <;> ring

theorem agg_pair_split (today : ℤ) (raw : List SaleItem)
    (a : List ((String × String) × AggEntry)) (c : List (String × StoreTot)) :
    raw.foldl (fun p i =>
      (dictUpd p.1 (salesKey i) (aggAdd today (aggInit (salesKey i)) i)
        (fun x => aggAdd today x i),
       dictUpd p.2 i.s (stAdd stZero i) (fun t => stAdd t i))) (a, c) =
    (dfold salesKey (fun i => aggAdd today (aggInit (salesKey i)) i)
       (fun i x => aggAdd today x i) a raw,
     dfold (fun i : SaleItem => i.s) (fun i => stAdd stZero i)
       (fun i t => stAdd t i) c raw) := by
  induction raw generalizing a c with
  | nil => rfl
  | cons b bs ih => simp only [List.foldl, dfold]; exact ih _ _

theorem aggregate_sales_fst (raw : List SaleItem) (days : ℕ) (today : ℤ) :
    (aggregate_sales raw days today).1 =
      ((dfold salesKey (fun i => aggAdd today (aggInit (salesKey i)) i)
          (fun i x => aggAdd today x i) [] raw).map Prod.snd).map
        (fun d => { d with wv := d.q / ((days : ℚ) / 7) }) := by
  unfold aggregate_sales
  rw [agg_pair_split]

theorem aggregate_sales_snd (raw : List SaleItem) (days : ℕ) (today : ℤ) :
    (aggregate_sales raw days today).2 =
      dfold (fun i : SaleItem => i.s) (fun i => stAdd stZero i)
        (fun i t => stAdd t i) [] raw := by
  unfold aggregate_sales
  rw [agg_pair_split]

theorem dictGet_aggDfold (today : ℤ) (raw : List SaleItem) (k : String × String) :
    dictGet (dfold salesKey (fun i => aggAdd today (aggInit (salesKey i)) i)
        (fun i x => aggAdd today x i) [] raw) k =
      match raw.filter (fun i => decide (salesKey i = k)) with
      | [] => none
      | fl => some (fl.foldl (fun x i => aggAdd today x i) (aggInit k)) := by
  rw [dictGet_dfold_keyed salesKey _ (fun i x => aggAdd today x i) aggInit
    (fun b => rfl) raw k]
  cases raw.filter (fun i => decide (salesKey i = k)) <;> rfl

theorem dictGet_stDfold (raw : List SaleItem) (sn : String) :
    dictGet (dfold (fun i : SaleItem => i.s) (fun i => stAdd stZero i)
        (fun i t => stAdd t i) [] raw) sn =
      match raw.filter (fun i => decide (i.s = sn)) with
      | [] => none
      | fl => some (fl.foldl (fun t i => stAdd t i) stZero) := by
  rw [dictGet_dfold_keyed (fun i : SaleItem => i.s) _ (fun i t => stAdd t i)
    (fun _ => stZero) (fun b => rfl) raw sn]
  cases raw.filter (fun i : SaleItem => decide (i.s = sn)) <;> rfl

theorem agg_assoc_perm {l₁ l₂ : List SaleItem} (h : l₁.Perm l₂) (today : ℤ)
    (k : String × String) :
    dictGet (dfold salesKey (fun i => aggAdd today (aggInit (salesKey i)) i)
        (fun i x => aggAdd today x i) [] l₁) k =
      dictGet (dfold salesKey (fun i => aggAdd today (aggInit (salesKey i)) i)
        (fun i x => aggAdd today x i) [] l₂) k := by
  rw [dictGet_aggDfold, dictGet_aggDfold]
  have hp : (l₁.filter (fun i => decide (salesKey i = k))).Perm
      (l₂.filter (fun i => decide (salesKey i = k))) := h.filter _
  have hfold := foldl_perm_of_comm (f := fun x i => aggAdd today x i)
    (fun c a b => aggAdd_comm today c a b) hp (aggInit k)
  cases h1 : l₁.filter (fun i => decide (salesKey i = k)) with
  | nil =>
    have h2 : l₂.filter (fun i => decide (salesKey i = k)) = [] := by
      rw [h1] at hp; exact hp.symm.eq_nil
    rw [h2]
  | cons b bs =>
    cases h2 : l₂.filter (fun i => decide (salesKey i = k)) with
    | nil =>
      rw [h1, h2] at hp
      exact absurd hp.eq_nil (by simp)
    | cons b' bs' =>
      rw [h1, h2] at hfold
      simp only []
      rw [hfold]

theorem st_assoc_perm {l₁ l₂ : List SaleItem} (h : l₁.Perm l₂) (sn : String) :
    dictGet (dfold (fun i : SaleItem => i.s) (fun i => stAdd stZero i)
        (fun i t => stAdd t i) [] l₁) sn =
      dictGet (dfold (fun i : SaleItem => i.s) (fun i => stAdd stZero i)
        (fun i t => stAdd t i) [] l₂) sn := by
  rw [dictGet_stDfold, dictGet_stDfold]
  have hp : (l₁.filter (fun i => decide (i.s = sn))).Perm
      (l₂.filter (fun i => decide (i.s = sn))) := h.filter _
  have hfold := foldl_perm_of_comm (f := fun t i => stAdd t i)
    (fun c a b => stAdd_comm c a b) hp stZero
  cases h1 : l₁.filter (fun i => decide (i.s = sn)) with
  | nil =>
    have h2 : l₂.filter (fun i => decide (i.s = sn)) = [] := by
      rw [h1] at hp; exact hp.symm.eq_nil
    rw [h2]
  | cons b bs =>
    cases h2 : l₂.filter (fun i => decide (i.s = sn)) with
    | nil =>
      rw [h1, h2] at hp
      exact absurd hp.eq_nil (by simp)
    | cons b' bs' =>
      rw [h1, h2] at hfold
      simp only []
      rw [hfold]

theorem agg_assoc_key_inv (today : ℤ) (raw : List SaleItem) :
    ∀ e ∈ dfold salesKey (fun i => aggAdd today (aggInit (salesKey i)) i)
        (fun i x => aggAdd today x i) [] raw,
      (e.2.s, e.2.vid) = e.1 := by
  refine dfold_entries_inv
    (P := fun k (v : AggEntry) => (v.s, v.vid) = k) ?_ ?_ ?_ raw
  · intro b; simp [aggAdd, aggInit, salesKey]
  · intro b k v hv; simpa [aggAdd] using hv
  · intro e he; simp at he

theorem entryGet_wv_map (assoc : List ((String × String) × AggEntry)) (weeks : ℚ)
    (hinv : ∀ e ∈ assoc, (e.2.s, e.2.vid) = e.1) (k : String × String) :
    entryGet ((assoc.map Prod.snd).map (fun d => { d with wv := d.q / weeks })) k =
      (dictGet assoc k).map (fun d => { d with wv := d.q / weeks }) := by
  induction assoc with
  | nil => rfl
  | cons e rest ih =>
    obtain ⟨ka, va⟩ := e
    have hka : (va.s, va.vid) = ka := hinv (ka, va) (List.mem_cons_self _ _)
    have ihr := ih (fun e he => hinv e (List.mem_cons_of_mem _ he))
    simp only [List.map_cons]
    by_cases hke : k = ka
    · have hpred : ((fun e : AggEntry => decide ((e.s, e.vid) = k))
          { va with wv := va.q / weeks }) = true := by
        simp only [decide_eq_true_eq]
        show (va.s, va.vid) = k
        rw [hka, hke]
      rw [entryGet, List.find?_cons_of_pos _ (by simpa using hpred)]
      simp [dictGet, hke]
    · have hpred : ¬ ((va.s, va.vid) = k) := by
        rw [hka]; exact fun hcon => hke hcon.symm
      rw [entryGet, List.find?_cons_of_neg _ (by simpa using hpred)]
      rw [← entryGet, ihr]
      simp [dictGet, hke]

end AggLemmas

-- ═══ Claim theorems ═══════════════════════════════════════════════════════

/-- Claim C4, counterexample: `aggregate_sales` does not return identical
output on two orderings of the same multiset — the output list order follows
dict insertion order, so swapping two items with different keys permutes both
the aggregated list and the per-store totals dict. -/
theorem C4_counterexample :
    ([⟨"A", "x", 1, 0, 0, 0, 0, ""⟩, ⟨"B", "y", 2, 0, 0, 0, 0, ""⟩] :
        List SaleItem).Perm
      [⟨"B", "y", 2, 0, 0, 0, 0, ""⟩, ⟨"A", "x", 1, 0, 0, 0, 0, ""⟩] ∧
    aggregate_sales [⟨"A", "x", 1, 0, 0, 0, 0, ""⟩, ⟨"B", "y", 2, 0, 0, 0, 0, ""⟩] 31 0 ≠
      aggregate_sales [⟨"B", "y", 2, 0, 0, 0, 0, ""⟩, ⟨"A", "x", 1, 0, 0, 0, 0, ""⟩] 31 0 := by
  constructor
  · exact List.Perm.swap _ _ _
  · decide

/-- Claim C4 (amended): for any two orderings of a fixed multiset of sales
line items, `aggregate_sales` produces the same aggregate for every
`(location, item)` key and the same totals for every store — the outputs are
equal as key-indexed maps, though their list order follows first-occurrence
order. -/
theorem C4_order_independent (l₁ l₂ : List SaleItem) (days : ℕ) (today : ℤ)
    (h : l₁.Perm l₂) :
    (∀ k, entryGet (aggregate_sales l₁ days today).1 k =
          entryGet (aggregate_sales l₂ days today).1 k) ∧
    (∀ sn, dictGet (aggregate_sales l₁ days today).2 sn =
           dictGet (aggregate_sales l₂ days today).2 sn) := by
  constructor
  · intro k
    rw [aggregate_sales_fst, aggregate_sales_fst,
      entryGet_wv_map _ _ (agg_assoc_key_inv today l₁) k,
      entryGet_wv_map _ _ (agg_assoc_key_inv today l₂) k,
      agg_assoc_perm h today k]
  · intro sn
    rw [aggregate_sales_snd, aggregate_sales_snd, st_assoc_perm h sn]

/-- Claim C4, witness: the amended theorem applied to the swapped pair of
items, evaluated at the key of the first item. -/
theorem C4_witness :
    entryGet (aggregate_sales
        [⟨"A", "x", 1, 0, 0, 0, 0, ""⟩, ⟨"B", "y", 2, 0, 0, 0, 0, ""⟩] 31 0).1
      ("A", "x") =
    entryGet (aggregate_sales
        [⟨"B", "y", 2, 0, 0, 0, 0, ""⟩, ⟨"A", "x", 1, 0, 0, 0, 0, ""⟩] 31 0).1
      ("A", "x") :=
  (C4_order_independent _ _ 31 0 (List.Perm.swap _ _ _)).1 ("A", "x")

/-- Claim C9: for an inventory row with on-hand 20 and a 28-day sales
aggregate of 56 units at the same `(location, item)`, with target
weeks-of-supply 2.5, the derived product row has weekly velocity 14, movement
class B, weeks-of-supply 1.4, par level 35 and order quantity 15. -/
theorem C9_scenario :
    (run_taps [invA]
        (aggregate_sales [⟨"A", "v1", 56, 0, 0, 0, 0, ""⟩] 28 0).1
        [] (5/2) 28 none none 0).pd.map
      (fun p => (p.wv, p.cls, p.wos, p.par, p.oq)) =
    [(14, "B", some (7/5), 35, 15)] := by decide

/-- Claim C2, counterexample: `run_taps` is not a pure function of its five
arguments — it reads `taps:inventory_ts` from the cache mid-computation, so
two calls with identical `inventory`, `sales`, `store_totals`, `wos_target`
and `days` can return different snapshots. -/
theorem C2_counterexample :
    run_taps [invA] [] [] (5/2) 31 (some "a") none 0 ≠
      run_taps [invA] [] [] (5/2) 31 (some "b") none 0 := by decide

/-- Claim C2 (amended): `run_taps` is deterministic and write-free given its
five arguments together with its three external reads (the clock used by the
`period` string and the cached `inventory_ts`/`sales_meta` timestamps): all
output fields other than `period`, `inventory_ts` and `sales_ts` are a pure
function of the five arguments alone. -/
theorem C2_pure_up_to_external_reads (inventory : List InvItem)
    (sales : List AggEntry) (store_totals : List (String × StoreTot))
    (wos_target : ℚ) (days : ℕ) (ts₁ ts₂ m₁ m₂ : Option String) (n₁ n₂ : ℤ) :
    stripExternalFields (run_taps inventory sales store_totals wos_target days ts₁ m₁ n₁) =
      stripExternalFields (run_taps inventory sales store_totals wos_target days ts₂ m₂ n₂) := by
  by_cases h : inventory = []
  · unfold run_taps
    rw [if_pos h, if_pos h]
  · unfold run_taps
    rw [if_neg h, if_neg h]
    rfl

section RunTapsLemmas

theorem dictGet_adj (store_totals : List (String × StoreTot))
    (products : List ProductRow) (sn : String) :
    dictGet (store_totals_adj store_totals products) sn =
      match products.filter (fun p => decide (p.s = sn)) with
      | [] => none
      | fl => some (fl.foldl (fun v p => adjSeen p v) (adjInit store_totals sn)) := by
  unfold store_totals_adj
  rw [dictGet_dfold_keyed (fun p : ProductRow => p.s) _ adjSeen
    (adjInit store_totals) (fun b => rfl) products sn]
  cases products.filter (fun p : ProductRow => decide (p.s = sn)) <;> rfl

theorem foldl_adjSeen (l : List ProductRow) (v : StoreTot) :
    l.foldl (fun v p => adjSeen p v) v =
      ⟨v.nr, v.tp, v.td, v.tc + (l.map (fun p => p.cogs)).sum, v.q⟩ := by
  induction l generalizing v with
  | nil => simp
  | cons p ps ih =>
    simp only [List.foldl, List.map_cons, List.sum_cons]
    rw [ih]
    simp [adjSeen, add_assoc]

theorem run_taps_pd (inventory : List InvItem) (sales : List AggEntry)
    (store_totals : List (String × StoreTot)) (wos_target : ℚ) (days : ℕ)
    (invTs salesTs : Option String) (now : ℤ) (h : ¬ inventory = []) :
    (run_taps inventory sales store_totals wos_target days invTs salesTs now).pd =
      (dfold (fun i : InvItem => (i.s, i.vid)) (fun i => i)
        (fun i v => { v with oh := v.oh + i.oh, ic := v.ic + i.ic, ir := v.ir + i.ir })
        [] inventory).map
        (fun kv => mkProductRow sales ((days : ℚ) / 7) wos_target kv.1 kv.2) := by
  unfold run_taps
  rw [if_neg h]

theorem run_taps_st_totals (inventory : List InvItem) (sales : List AggEntry)
    (store_totals : List (String × StoreTot)) (wos_target : ℚ) (days : ℕ)
    (invTs salesTs : Option String) (now : ℤ) (h : ¬ inventory = []) :
    (run_taps inventory sales store_totals wos_target days invTs salesTs now).st.map
        (fun s => (s.net_revenue, s.cogs)) =
      some
        (roundTo 2 (((store_totals_adj store_totals
          (run_taps inventory sales store_totals wos_target days invTs salesTs now).pd).map
            (fun e => e.2.nr)).sum),
         roundTo 2 (((store_totals_adj store_totals
          (run_taps inventory sales store_totals wos_target days invTs salesTs now).pd).map
            (fun e => e.2.tc)).sum)) := by
  unfold run_taps
  rw [if_neg h]
  rfl

end RunTapsLemmas

/-- Claim C8: in every `run_taps` output, each location's adjusted total
cost-of-goods is recomputed bottom-up as the exact sum of the product-row
`cogs` values of that location, and the global cost figure is the (rounded)
sum of the per-location adjusted costs. -/
theorem C8_cogs_bottom_up (inventory : List InvItem) (sales : List AggEntry)
    (store_totals : List (String × StoreTot)) (wos_target : ℚ) (days : ℕ)
    (invTs salesTs : Option String) (now : ℤ) :
    (∀ sn v, dictGet (store_totals_adj store_totals
        (run_taps inventory sales store_totals wos_target days invTs salesTs now).pd) sn =
          some v →
      v.tc = (((run_taps inventory sales store_totals wos_target days invTs
          salesTs now).pd.filter (fun p => decide (p.s = sn))).map
        (fun p => p.cogs)).sum) ∧
    (∀ s, (run_taps inventory sales store_totals wos_target days invTs salesTs now).st =
        some s →
      s.cogs = roundTo 2 (((store_totals_adj store_totals
        (run_taps inventory sales store_totals wos_target days invTs salesTs now).pd).map
          (fun e => e.2.tc)).sum)) := by
  constructor
  · intro sn v hv
    rw [dictGet_adj] at hv
    cases hfl : (run_taps inventory sales store_totals wos_target days invTs
        salesTs now).pd.filter (fun p => decide (p.s = sn)) with
    | nil => rw [hfl] at hv; cases hv
    | cons b bs =>
      rw [hfl] at hv
      have hv' := Option.some.inj hv
      rw [← hv', foldl_adjSeen]
      simp [adjInit]
  · intro s hs
    by_cases h : inventory = []
    · unfold run_taps at hs
      rw [if_pos h] at hs
      cases hs
    · have ht := run_taps_st_totals inventory sales store_totals wos_target days
        invTs salesTs now h
      rw [hs] at ht
      have := Option.some.inj ht
      exact congrArg Prod.snd this

/-- Claim C8, witness: for a concrete one-product input the adjusted entry of
store "A" carries exactly the product-row cogs sum. -/
theorem C8_witness :
    ∃ v, dictGet (store_totals_adj stA
        (run_taps [invA] [aggA] stA (5/2) 31 none none 0).pd) "A" = some v ∧
      v.tc = (((run_taps [invA] [aggA] stA (5/2) 31 none none 0).pd.filter
        (fun p => decide (p.s = "A"))).map (fun p => p.cogs)).sum := by
  refine ⟨⟨10, 12, 2, 0, 5⟩, by decide, ?_⟩
  exact (C8_cogs_bottom_up [invA] [aggA] stA (5/2) 31 none none 0).1 "A"
    ⟨10, 12, 2, 0, 5⟩ (by decide)

/-- Claim C10: every product row of a `run_taps` output corresponds to a
`(location, item)` key present in the inventory input (a sold item with no
inventory row yields no product row); for every store with at least one
product row, the adjusted totals pass the raw per-store revenue, gross,
discount and unit totals through unchanged (so sold-but-unstocked items still
enter those totals), and the global net revenue is the rounded sum of those
per-location figures; an empty inventory yields the empty snapshot. -/
theorem C10_products_and_totals (inventory : List InvItem) (sales : List AggEntry)
    (store_totals : List (String × StoreTot)) (wos_target : ℚ) (days : ℕ)
    (invTs salesTs : Option String) (now : ℤ) :
    (∀ p ∈ (run_taps inventory sales store_totals wos_target days invTs salesTs now).pd,
      ∃ i ∈ inventory, i.s = p.s ∧ i.vid = p.vid) ∧
    (∀ sn, (∃ p ∈ (run_taps inventory sales store_totals wos_target days invTs
        salesTs now).pd, p.s = sn) →
      ∃ v, dictGet (store_totals_adj store_totals
          (run_taps inventory sales store_totals wos_target days invTs salesTs now).pd) sn =
        some v ∧
        v.nr = ((dictGet store_totals sn).getD stZero).nr ∧
        v.tp = ((dictGet store_totals sn).getD stZero).tp ∧
        v.td = ((dictGet store_totals sn).getD stZero).td ∧
        v.q = ((dictGet store_totals sn).getD stZero).q) ∧
    (∀ s, (run_taps inventory sales store_totals wos_target days invTs salesTs now).st =
        some s →
      s.net_revenue = roundTo 2 (((store_totals_adj store_totals
        (run_taps inventory sales store_totals wos_target days invTs salesTs now).pd).map
          (fun e => e.2.nr)).sum)) ∧
    run_taps [] sales store_totals wos_target days invTs salesTs now = ⟨none, [], []⟩ := by
  refine ⟨?_, ?_, ?_, rfl⟩
  · intro p hp
    by_cases h : inventory = []
    · subst h
      have : (run_taps [] sales store_totals wos_target days invTs salesTs now).pd = [] := rfl
      rw [this] at hp
      cases hp
    · rw [run_taps_pd inventory sales store_totals wos_target days invTs salesTs now h] at hp
      rcases List.mem_map.mp hp with ⟨kv, hkv, hpe⟩
      rcases mem_dfold_key hkv with ⟨v, hv⟩ | hkey
      · cases hv
      · rcases List.mem_map.mp hkey with ⟨i, hi, hik⟩
        refine ⟨i, hi, ?_, ?_⟩
        · have h1 : i.s = kv.1.1 := by rw [← hik]
          have h2 : p.s = kv.1.1 := by rw [← hpe]; rfl
          rw [h1, h2]
        · have h1 : i.vid = kv.1.2 := by rw [← hik]
          have h2 : p.vid = kv.1.2 := by rw [← hpe]; rfl
          rw [h1, h2]
  · intro sn hsn
    rcases hsn with ⟨p, hp, hps⟩
    have hmem : p ∈ (run_taps inventory sales store_totals wos_target days invTs
        salesTs now).pd.filter (fun p => decide (p.s = sn)) :=
      List.mem_filter.mpr ⟨hp, by simp [hps]⟩
    rw [dictGet_adj]
    cases hfl : (run_taps inventory sales store_totals wos_target days invTs
        salesTs now).pd.filter (fun p => decide (p.s = sn)) with
    | nil => rw [hfl] at hmem; cases hmem
    | cons b bs =>
      refine ⟨_, rfl, ?_, ?_, ?_, ?_⟩ <;>
        rw [foldl_adjSeen] <;> rfl
  · intro s hs
    by_cases h : inventory = []
    · unfold run_taps at hs
      rw [if_pos h] at hs
      cases hs
    · have ht := run_taps_st_totals inventory sales store_totals wos_target days
        invTs salesTs now h
      rw [hs] at ht
      have := Option.some.inj ht
      exact congrArg Prod.fst this

/-- Claim C10, witness: the theorem applied to a concrete input whose sales
include a store ("B") with no inventory row: the only product row comes from
the inventory key, and store "A"'s adjusted totals carry the raw totals. -/
theorem C10_witness :
    (∃ i ∈ [invA], i.s = "A" ∧ i.vid = "v1") ∧
    (∃ v, dictGet (store_totals_adj stA
        (run_taps [invA] [aggA] stA (5/2) 31 none none 0).pd) "A" = some v ∧
      v.nr = ((dictGet stA "A").getD stZero).nr ∧
      v.tp = ((dictGet stA "A").getD stZero).tp ∧
      v.td = ((dictGet stA "A").getD stZero).td ∧
      v.q = ((dictGet stA "A").getD stZero).q) := by
  constructor
  · exact (C10_products_and_totals [invA] [aggA] stA (5/2) 31 none none 0).1
      (mkProductRow [aggA] ((31 : ℚ) / 7) (5/2) ("A", "v1") invA) (by decide)
  · exact (C10_products_and_totals [invA] [aggA] stA (5/2) 31 none none 0).2.1
      "A" ⟨mkProductRow [aggA] ((31 : ℚ) / 7) (5/2) ("A", "v1") invA, by decide, rfl⟩

section StrOrder

theorem charsLt_irrefl (l : List Char) : charsLt l l = false := by
  induction l with
  | nil => rfl
  | cons a as ih => simp [charsLt, ih]

theorem charsLt_trans {a b c : List Char} (hab : charsLt a b = true)
    (hbc : charsLt b c = true) : charsLt a c = true := by
  induction a generalizing b c with
  | nil =>
    cases b with
    | nil => simp [charsLt] at hab
    | cons bh bt =>
      cases c with
      | nil => simp [charsLt] at hbc
      | cons ch ct => rfl
  | cons ah as ih =>
    cases b with
    | nil => simp [charsLt] at hab
    | cons bh bs =>
      cases c with
      | nil => simp [charsLt] at hbc
      | cons ch cs =>
        simp only [charsLt] at hab hbc ⊢
        by_cases h1 : ah < bh
        · rw [if_pos h1] at hab
          by_cases h2 : bh < ch
          · rw [if_pos (lt_trans h1 h2)]
          · by_cases h3 : ch < bh
            · rw [if_pos h3] at hbc
              rw [if_neg h2] at hbc
              cases hbc
            · have he : bh = ch := le_antisymm (not_lt.mp h3) (not_lt.mp h2)
              rw [if_pos (he ▸ h1)]
        · by_cases h1' : bh < ah
          · rw [if_neg h1, if_pos h1'] at hab
            cases hab
          · have he : ah = bh := le_antisymm (not_lt.mp h1') (not_lt.mp h1)
            subst he
            rw [if_neg h1, if_neg h1'] at hab
            by_cases h2 : ah < ch
            · rw [if_pos h2]
            · by_cases h3 : ch < ah
              · rw [if_neg h2, if_pos h3] at hbc
                cases hbc
              · rw [if_neg h2, if_neg h3] at hbc ⊢
                exact ih hab hbc

theorem charsLt_asymm {a b : List Char} (h : charsLt a b = true) :
    charsLt b a = false := by
  cases hba : charsLt b a with
  | false => rfl
  | true =>
    have := charsLt_trans h hba
    rw [charsLt_irrefl] at this
    cases this

theorem charsLt_total (a b : List Char) :
    charsLt a b = true ∨ a = b ∨ charsLt b a = true := by
  induction a generalizing b with
  | nil =>
    cases b with
    | nil => exact Or.inr (Or.inl rfl)
    | cons bh bt => exact Or.inl rfl
  | cons ah as ih =>
    cases b with
    | nil => exact Or.inr (Or.inr rfl)
    | cons bh bs =>
      by_cases h1 : ah < bh
      · left; simp [charsLt, h1]
      · by_cases h2 : bh < ah
        · right; right; simp [charsLt, h2]
        · have he : ah = bh := le_antisymm (not_lt.mp h2) (not_lt.mp h1)
          subst he
          rcases ih bs with h | h | h
          · left; simp [charsLt, lt_irrefl, h]
          · right; left; rw [h]
          · right; right; simp [charsLt, lt_irrefl, h]

theorem strLeB_refl (a : String) : strLeB a a = true := by
  simp [strLeB, strLtB, charsLt_irrefl]

theorem strLeB_of_strLtB {a b : String} (h : strLtB a b = true) :
    strLeB a b = true := by
  simp only [strLeB, strLtB, Bool.not_eq_true']
  exact charsLt_asymm h

theorem strLeB_trans {a b c : String} (hab : strLeB a b = true)
    (hbc : strLeB b c = true) : strLeB a c = true := by
  simp only [strLeB, strLtB, Bool.not_eq_true'] at hab hbc ⊢
  cases hca : charsLt c.data a.data with
  | false => rfl
  | true =>
    rcases charsLt_total a.data b.data with h | h | h
    · have := charsLt_trans hca h
      rw [this] at hbc
      cases hbc
    · rw [h] at hca
      rw [hca] at hbc
      cases hbc
    · rw [h] at hab
      cases hab

theorem strLeB_ne_empty {c l : String} (h : strLeB c l = true) (hc : c ≠ "") :
    l ≠ "" := by
  intro hl
  subst hl
  cases hcd : c.data with
  | nil =>
    refine hc ?_
    cases c with
    | mk data => rw [show data = [] from hcd]
  | cons x xs => simp [strLeB, strLtB, hcd, charsLt] at h

theorem processOrder_last_le (sc : String) (acc : List SaleItem × String)
    (o : Order) : strLeB acc.2 (processOrder sc acc o).2 = true := by
  unfold processOrder
  by_cases hs : orderSkipped o = true
  · rw [if_pos hs]; exact strLeB_refl _
  · rw [if_neg hs]
    show strLeB acc.2
      (if decide (o.createdAt ≠ "") && strLtB acc.2 o.createdAt
       then o.createdAt else acc.2) = true
    by_cases hcl : (decide (o.createdAt ≠ "") && strLtB acc.2 o.createdAt) = true
    · rw [if_pos hcl]
      exact strLeB_of_strLtB (Bool.and_eq_true _ _ |>.mp hcl).2
    · rw [if_neg hcl]
      exact strLeB_refl _

theorem foldl_processOrder_le (sc : String) (os : List Order)
    (acc : List SaleItem × String) :
    strLeB acc.2 (os.foldl (processOrder sc) acc).2 = true := by
  induction os generalizing acc with
  | nil => exact strLeB_refl _
  | cons o os ih =>
    rw [List.foldl_cons]
    exact strLeB_trans (processOrder_last_le sc acc o) (ih _)

theorem foldl_processOrder_const (sc : String) (os : List Order) (c : String)
    (h : ∀ o ∈ os, strLtB c o.createdAt = false) :
    ∀ items, (os.foldl (processOrder sc) (items, c)).2 = c := by
  induction os with
  | nil => intro items; rfl
  | cons o os ih =>
    intro items
    have hstep : (processOrder sc (items, c) o).2 = c := by
      unfold processOrder
      by_cases hs : orderSkipped o = true
      · rw [if_pos hs]
      · rw [if_neg hs]
        show (if decide (o.createdAt ≠ "") && strLtB c o.createdAt
              then o.createdAt else c) = c
        rw [h o (List.mem_cons_self _ _)]
        simp
    rw [List.foldl_cons]
    cases hpo : processOrder sc (items, c) o with
    | mk its2 c2 =>
      rw [hpo] at hstep
      have hc2 : c2 = c := hstep
      subst hc2
      exact ih (fun o' ho' => h o' (List.mem_cons_of_mem _ ho')) its2

end StrOrder

theorem pull_one_fresh (env : RebuildEnv) (cursors : List (String × String))
    (loc : Loc) (c : String) (d : ℤ)
    (hcur : dictGet cursors (locId loc) = some c) (hne : c ≠ "")
    (hd : parseDate (strTake c 10) = some d) (hage : env.today - d ≤ 3) :
    pull_one true env cursors loc =
      (if (pull_store_sales loc.clean (some c) (env.fetchFor (locId loc))).2.2 ≠ ""
       then dictSet cursors (locId loc)
         (pull_store_sales loc.clean (some c) (env.fetchFor (locId loc))).2.2
       else cursors,
       (pull_store_sales loc.clean (some c) (env.fetchFor (locId loc))).2.1) := by
  unfold pull_one
  simp only [hcur, hd, hage, eq_self_iff_true, if_true]
  rw [if_pos hne]

/-- Claim C5, counterexample: with a stale cursor (age above three days) the
sync falls back to a full-window fetch whose running maximum starts from the
empty string, so a window whose newest surviving order is older than the
stored cursor overwrites the cursor with a smaller value. -/
theorem C5_counterexample :
    dictGet (pull_one true staleEnv [("LOC1", "2025-09-20")] wLoc).1 "LOC1" =
      some "2025-09-15" ∧
    strLtB "2025-09-15" "2025-09-20" = true := by
  constructor <;> decide

/-- Claim C5 (amended): for an incremental sync with a fresh cursor (age at
most three days) the stored cursor never decreases, and a sync that observes
no creation timestamp above the cursor leaves the stored value unchanged;
only the full-window path (stale or absent cursor, or a forced full refresh)
can overwrite the cursor with a smaller timestamp. -/
theorem C5_cursor_monotonic_incremental (env : RebuildEnv)
    (cursors : List (String × String)) (loc : Loc) (c : String) (d : ℤ)
    (hcur : dictGet cursors (locId loc) = some c) (hne : c ≠ "")
    (hd : parseDate (strTake c 10) = some d) (hage : env.today - d ≤ 3) :
    (∃ c', dictGet (pull_one true env cursors loc).1 (locId loc) = some c' ∧
      strLeB c c' = true) ∧
    (∀ os, env.fetchFor (locId loc) = SalesFetch.pages os →
      (∀ o ∈ os, strLtB c o.createdAt = false) →
      dictGet (pull_one true env cursors loc).1 (locId loc) = some c) := by
  rw [pull_one_fresh env cursors loc c d hcur hne hd hage]
  cases hf : env.fetchFor (locId loc) with
  | probeFail =>
    constructor
    · refine ⟨c, ?_, strLeB_refl c⟩
      simp [pull_store_sales, hcur]
    · intro os hos
      cases hos
  | noOrders =>
    constructor
    · refine ⟨c, ?_, strLeB_refl c⟩
      simp only [pull_store_sales, Option.getD_some]
      rw [if_pos hne]
      exact dictGet_dictSet_self cursors (locId loc) c
    · intro os hos
      cases hos
  | pages os =>
    have hle : strLeB c
        (pull_store_sales loc.clean (some c) (SalesFetch.pages os)).2.2 = true := by
      simp only [pull_store_sales, Option.getD_some]
      exact foldl_processOrder_le loc.clean os ([], c)
    have hlne : (pull_store_sales loc.clean (some c) (SalesFetch.pages os)).2.2 ≠ "" :=
      strLeB_ne_empty hle hne
    constructor
    · refine ⟨(pull_store_sales loc.clean (some c) (SalesFetch.pages os)).2.2, ?_, hle⟩
      rw [if_pos hlne]
      exact dictGet_dictSet_self cursors (locId loc) _
    · intro os' hos' hno
      cases hos'
      have hconst : (pull_store_sales loc.clean (some c) (SalesFetch.pages os)).2.2 = c := by
        simp only [pull_store_sales, Option.getD_some]
        exact foldl_processOrder_const loc.clean os c
          (fun o ho => hno o ho) []
      rw [if_pos hlne, hconst]
      exact dictGet_dictSet_self cursors (locId loc) c

/-- Claim C5, witness: the amended theorem at a concrete fresh cursor (one
day old) with an empty fetch: the cursor is preserved. -/
theorem C5_witness :
    ∃ c', dictGet (pull_one true freshEnv [("LOC1", "2025-10-01")] wLoc).1
        "LOC1" = some c' ∧ strLeB "2025-10-01" c' = true :=
  (C5_cursor_monotonic_incremental freshEnv [("LOC1", "2025-10-01")] wLoc
    "2025-10-01" (daysFromCivil 2025 10 1) (by decide) (by decide) (by decide)
    (by decide)).1

section PipelineLemmas

theorem get_locations_state (env : RebuildEnv) (σ : CacheState) :
    (get_locations env σ).1 = σ ∨
      ∃ L, (get_locations env σ).1 = {σ with locations := some L} := by
  unfold get_locations
  cases hl : σ.locations with
  | some L =>
    simp only []
    by_cases h : L ≠ []
    · rw [if_pos h]; left; rfl
    · rw [if_neg h]
      cases env.locFetch with
      | none => left; rfl
      | some L' => right; exact ⟨L', rfl⟩
  | none =>
    simp only []
    cases env.locFetch with
    | none => left; rfl
    | some L' => right; exact ⟨L', rfl⟩

theorem get_locations_frame (env : RebuildEnv) (σ : CacheState) :
    ((get_locations env σ).1).sales = σ.sales ∧
    ((get_locations env σ).1).salesStoreTotals = σ.salesStoreTotals ∧
    ((get_locations env σ).1).cursors = σ.cursors ∧
    ((get_locations env σ).1).lock = σ.lock ∧
    ((get_locations env σ).1).progress = σ.progress ∧
    ((get_locations env σ).1).inventory = σ.inventory ∧
    ((get_locations env σ).1).inventoryTs = σ.inventoryTs ∧
    ((get_locations env σ).1).dashboard = σ.dashboard ∧
    ((get_locations env σ).1).salesMeta = σ.salesMeta := by
  rcases get_locations_state env σ with h | ⟨L, h⟩ <;> rw [h] <;>
    exact ⟨rfl, rfl, rfl, rfl, rfl, rfl, rfl, rfl, rfl⟩

theorem get_locations_cached (env : RebuildEnv) (σ : CacheState) (L : List Loc)
    (hl : σ.locations = some L) (hne : L ≠ []) :
    get_locations env σ = (σ, L) := by
  unfold get_locations
  rw [hl]
  simp only []
  rw [if_pos hne]

theorem get_locations_some (env : RebuildEnv) (σ : CacheState)
    (h : (get_locations env σ).2 ≠ []) :
    ((get_locations env σ).1).locations = some (get_locations env σ).2 := by
  unfold get_locations at *
  cases hl : σ.locations with
  | some L =>
    rw [hl] at h
    simp only [] at h ⊢
    by_cases hL : L ≠ []
    · rw [if_pos hL] at h ⊢
      exact hl
    · rw [if_neg hL] at h ⊢
      cases hf : env.locFetch with
      | none => rw [hf] at h; exact absurd rfl h
      | some L' => rfl
  | none =>
    rw [hl] at h
    simp only [] at h ⊢
    cases hf : env.locFetch with
    | none => rw [hf] at h; exact absurd rfl h
    | some L' => rfl

end PipelineLemmas

section PipelineLemmas2

theorem pull_inventory_state (env : RebuildEnv) (σ : CacheState) :
    (pull_inventory env σ).1 = σ ∨
    (pull_inventory env σ).1 = (get_locations env σ).1 ∨
    ∃ inv, (pull_inventory env σ).1 =
      {(get_locations env σ).1 with
        inventory := some inv,
        inventoryTs := some env.nowIso, supplierMap := some env.supMap} := by
  unfold pull_inventory
  by_cases he : env.invExc = true
  · rw [if_pos he]; left; rfl
  · rw [if_neg he]
    simp only []
    by_cases hL : (get_locations env σ).2 = []
    · rw [if_pos hL]; right; left; rfl
    · rw [if_neg hL]
      cases env.invFetch with
      | none => right; left; rfl
      | some inv => right; right; exact ⟨inv, rfl⟩

theorem pull_inventory_frame (env : RebuildEnv) (σ : CacheState) :
    ((pull_inventory env σ).1).sales = σ.sales ∧
    ((pull_inventory env σ).1).salesStoreTotals = σ.salesStoreTotals ∧
    ((pull_inventory env σ).1).cursors = σ.cursors ∧
    ((pull_inventory env σ).1).lock = σ.lock ∧
    ((pull_inventory env σ).1).progress = σ.progress := by
  obtain ⟨g1, g2, g3, g4, g5, g6, g7, g8, g9⟩ := get_locations_frame env σ
  rcases pull_inventory_state env σ with h | h | ⟨inv, h⟩ <;> rw [h]
  · exact ⟨rfl, rfl, rfl, rfl, rfl⟩
  · exact ⟨g1, g2, g3, g4, g5⟩
  · exact ⟨g1, g2, g3, g4, g5⟩

theorem pull_inventory_ok (env : RebuildEnv) (σ : CacheState)
    (he : env.invExc = false) :
    ∃ inv, (pull_inventory env σ).2 = Except.ok inv := by
  unfold pull_inventory
  rw [if_neg (by simp [he])]
  simp only []
  by_cases hL : (get_locations env σ).2 = []
  · rw [if_pos hL]; exact ⟨[], rfl⟩
  · rw [if_neg hL]
    cases env.invFetch with
    | none => exact ⟨[], rfl⟩
    | some inv => exact ⟨inv, rfl⟩

theorem pull_inventory_locations (env : RebuildEnv) (σ : CacheState)
    (inv : List InvItem) (h : (pull_inventory env σ).2 = Except.ok inv)
    (hne : inv ≠ []) :
    ∃ L, L ≠ [] ∧ ((pull_inventory env σ).1).locations = some L := by
  unfold pull_inventory at h ⊢
  by_cases he : env.invExc = true
  · rw [if_pos he] at h; cases h
  · rw [if_neg he] at h ⊢
    simp only [] at h ⊢
    by_cases hL : (get_locations env σ).2 = []
    · rw [if_pos hL] at h
      injection h with h2
      exact absurd h2.symm hne
    · rw [if_neg hL] at h ⊢
      cases hf : env.invFetch with
      | none =>
        rw [hf] at h
        injection h with h2
        exact absurd h2.symm hne
      | some inv' =>
        refine ⟨(get_locations env σ).2, hL, ?_⟩
        show ((get_locations env σ).1).locations = some (get_locations env σ).2
        exact get_locations_some env σ hL

theorem pull_sales_all_state (days : ℕ) (inc : Bool) (env : RebuildEnv)
    (σ : CacheState) :
    (pull_sales_all days inc env σ).1 = σ ∨
    (pull_sales_all days inc env σ).1 = (get_locations env σ).1 ∨
    ∃ cs, (pull_sales_all days inc env σ).1 =
      {(get_locations env σ).1 with progress := some "sales", cursors := cs} := by
  unfold pull_sales_all
  by_cases he : env.salesExc = true
  · rw [if_pos he]; left; rfl
  · rw [if_neg he]
    simp only []
    by_cases hL : (get_locations env σ).2 = []
    · rw [if_pos hL]; right; left; rfl
    · rw [if_neg hL]
      right; right
      refine ⟨(syncLocs inc env ((get_locations env σ).1).cursors
        (get_locations env σ).2).1, ?_⟩
      split
      · split
        · split
          · rfl
          · rfl
        · rfl
      · rfl

theorem pull_sales_all_frame (days : ℕ) (inc : Bool) (env : RebuildEnv)
    (σ : CacheState) :
    ((pull_sales_all days inc env σ).1).sales = σ.sales ∧
    ((pull_sales_all days inc env σ).1).salesStoreTotals = σ.salesStoreTotals ∧
    ((pull_sales_all days inc env σ).1).lock = σ.lock ∧
    ((pull_sales_all days inc env σ).1).inventoryTs = σ.inventoryTs := by
  obtain ⟨g1, g2, g3, g4, g5, g6, g7, g8, g9⟩ := get_locations_frame env σ
  rcases pull_sales_all_state days inc env σ with h | h | ⟨cs, h⟩ <;> rw [h]
  · exact ⟨rfl, rfl, rfl, rfl⟩
  · exact ⟨g1, g2, g4, g7⟩
  · exact ⟨g1, g2, g4, g7⟩

theorem pull_sales_all_ok (days : ℕ) (inc : Bool) (env : RebuildEnv)
    (σ : CacheState) (he : env.salesExc = false) :
    ∃ pr, (pull_sales_all days inc env σ).2 = Except.ok pr := by
  unfold pull_sales_all
  rw [if_neg (by simp [he])]
  simp only []
  by_cases hL : (get_locations env σ).2 = []
  · rw [if_pos hL]; exact ⟨([], []), rfl⟩
  · rw [if_neg hL]
    split
    · split
      · split
        · exact ⟨_, rfl⟩
        · exact ⟨([], []), rfl⟩
      · exact ⟨([], []), rfl⟩
    · exact ⟨_, rfl⟩

theorem do_rebuild_lock (days : ℕ) (inc : Bool) (env : RebuildEnv)
    (σ : CacheState) :
    ((do_rebuild days inc env σ).1).lock = σ.lock := by
  unfold do_rebuild
  simp only []
  have pif := (pull_inventory_frame env {σ with progress := some "inventory"}).2.2.2.1
  cases hpi : pull_inventory env {σ with progress := some "inventory"} with
  | mk σ₂ r =>
    rw [hpi] at pif
    have hσ₂ : σ₂.lock = σ.lock := pif
    cases r with
    | error e => simp only []; exact hσ₂
    | ok inventory =>
      simp only []
      by_cases hinv : inventory = []
      · rw [if_pos hinv]; exact hσ₂
      · rw [if_neg hinv]
        have psf := (pull_sales_all_frame days inc env σ₂).2.2.1
        cases hps : pull_sales_all days inc env σ₂ with
        | mk σ₃ r' =>
          rw [hps] at psf
          have hσ₃ : σ₃.lock = σ.lock := by rw [psf]; exact hσ₂
          cases r' with
          | error e => simp only []; exact hσ₃
          | ok pr =>
            cases pr with
            | mk sales_agg store_totals => simp only []; exact hσ₃

theorem do_rebuild_progress (days : ℕ) (inc : Bool) (env : RebuildEnv)
    (σ : CacheState) (hi : env.invExc = false) (hs : env.salesExc = false) :
    ((do_rebuild days inc env σ).1).progress = none := by
  unfold do_rebuild
  simp only []
  obtain ⟨inv0, hok⟩ := pull_inventory_ok env {σ with progress := some "inventory"} hi
  cases hpi : pull_inventory env {σ with progress := some "inventory"} with
  | mk σ₂ r =>
    rw [hpi] at hok
    cases r with
    | error e => cases hok
    | ok inventory =>
      simp only []
      by_cases hinv : inventory = []
      · rw [if_pos hinv]
      · rw [if_neg hinv]
        obtain ⟨pr0, hok2⟩ := pull_sales_all_ok days inc env σ₂ hs
        cases hps : pull_sales_all days inc env σ₂ with
        | mk σ₃ r' =>
          rw [hps] at hok2
          cases r' with
          | error e => cases hok2
          | ok pr =>
            cases pr with
            | mk sales_agg store_totals => rfl

end PipelineLemmas2

/-- Claim C6: when the rebuild lock is already held, the locked rebuild entry
point is a silent no-op — the entire modelled cache state, the lock included,
is returned unchanged, so the second of two concurrent triggers performs no
pipeline work and no cache writes. -/
theorem C6_lock_not_acquired (days : ℕ) (inc : Bool) (env : RebuildEnv)
    (σ : CacheState) (t : String) (h : σ.lock = some t) :
    bg_rebuild_locked days inc env σ = σ := by
  unfold bg_rebuild_locked
  rw [h]

/-- Claim C6, witness: the no-op on a concrete locked cache. -/
theorem C6_witness : bg_rebuild_locked 31 true wEnv σLocked = σLocked :=
  C6_lock_not_acquired 31 true wEnv σLocked "other" rfl

/-- Claim C7, counterexample: a rebuild whose sales phase raises mid-pipeline
releases the lock (the compare-and-delete in the context manager's `finally`)
but does NOT clear the `taps:rebuild:progress` marker — `_clear_progress` is
called only on the success and inventory-abort paths, not in the exception
handler of `_bg_rebuild_locked`. -/
theorem C7_counterexample :
    (bg_rebuild_locked 31 true salesExcEnv σEmpty).lock = none ∧
    (bg_rebuild_locked 31 true salesExcEnv σEmpty).progress = some "inventory" := by
  constructor <;> decide

/-- Claim C7 (amended): on every exit path of a locked rebuild the lock is
released via the compare-and-delete (conditional on the stored token still
being this invocation's); the progress marker is cleared on successful
completion and on the inventory-phase abort, but a mid-pipeline exception
leaves it set until its TTL expires. -/
theorem C7_lock_release (days : ℕ) (inc : Bool) (env : RebuildEnv)
    (σ : CacheState) (h : σ.lock = none) :
    (bg_rebuild_locked days inc env σ).lock = none ∧
    (env.invExc = false → env.salesExc = false →
      (bg_rebuild_locked days inc env σ).progress = none) := by
  unfold bg_rebuild_locked
  rw [h]
  simp only []
  have hl := do_rebuild_lock days inc env {σ with lock := some env.lockId}
  have hl' : ((do_rebuild days inc env {σ with lock := some env.lockId}).1).lock =
      some env.lockId := hl
  constructor
  · rw [if_pos hl']
  · intro hi hs
    rw [if_pos hl']
    show ((do_rebuild days inc env {σ with lock := some env.lockId}).1).progress = none
    exact do_rebuild_progress days inc env _ hi hs

/-- Claim C7, witness: a benign rebuild from an unlocked state ends with the
lock released and the progress marker cleared. -/
theorem C7_witness :
    (bg_rebuild_locked 31 true wEnv σEmpty).lock = none ∧
    (bg_rebuild_locked 31 true wEnv σEmpty).progress = none :=
  ⟨(C7_lock_release 31 true wEnv σEmpty rfl).1,
   (C7_lock_release 31 true wEnv σEmpty rfl).2 rfl rfl⟩

section NonClobber

theorem syncLocs_items_nil (inc : Bool) (env : RebuildEnv)
    (H : ∀ sc cur lid, (pull_store_sales sc cur (env.fetchFor lid)).2.1 = [])
    (locs : List Loc) :
    ∀ cs its, (locs.foldl (fun p loc =>
      let r := pull_one inc env p.1 loc
      (r.1, p.2 ++ r.2)) (cs, its)).2 = its := by
  induction locs with
  | nil => intro cs its; rfl
  | cons loc locs ih =>
    intro cs its
    rw [List.foldl_cons]
    have hone : (pull_one inc env cs loc).2 = [] := by
      unfold pull_one
      simp only []
      exact H loc.clean _ (locId loc)
    have hstep : (let r := pull_one inc env cs loc
        ((r.1, its ++ r.2) : List (String × String) × List SaleItem)) =
        ((pull_one inc env cs loc).1, its) := by
      simp only [hone, List.append_nil]
    rw [hstep]
    exact ih _ _

theorem syncLocs_nil (inc : Bool) (env : RebuildEnv)
    (H : ∀ sc cur lid, (pull_store_sales sc cur (env.fetchFor lid)).2.1 = [])
    (cs : List (String × String)) (locs : List Loc) :
    (syncLocs inc env cs locs).2 = [] := by
  unfold syncLocs
  exact syncLocs_items_nil inc env H locs cs []

theorem pull_sales_all_nonclobber (days : ℕ) (inc : Bool) (env : RebuildEnv)
    (σ : CacheState) (l : List AggEntry) (st : List (String × StoreTot))
    (L : List Loc) (he : env.salesExc = false)
    (hl : σ.sales = some l) (hlne : l ≠ []) (hst : σ.salesStoreTotals = some st)
    (hloc : σ.locations = some L) (hLne : L ≠ [])
    (H : ∀ sc cur lid, (pull_store_sales sc cur (env.fetchFor lid)).2.1 = []) :
    (pull_sales_all days inc env σ).2 = Except.ok (l, st) := by
  unfold pull_sales_all
  rw [if_neg (by simp [he])]
  rw [get_locations_cached env σ L hloc hLne]
  simp only []
  rw [if_neg hLne]
  have hsy := syncLocs_nil inc env H
    ({σ with progress := some "sales"} : CacheState).cursors L
  rw [if_pos hsy]
  have hsales : ({{σ with progress := some "sales"} with
      cursors := (syncLocs inc env
        ({σ with progress := some "sales"} : CacheState).cursors L).1} :
      CacheState).sales = some l := hl
  rw [hsales]
  simp only []
  rw [if_pos hlne, hst]
  rfl

end NonClobber

/-- Claim C1: a rebuild whose sales fetch yields zero raw line items across
all locations leaves a previously cached non-empty sales aggregate and its
cached per-location totals unchanged — the empty fetch is never persisted as
an empty aggregate over existing non-empty data (on the success path the
cached values are re-persisted verbatim; on the abort and exception paths
they are not touched at all). -/
theorem C1_nonclobber (days : ℕ) (inc : Bool) (env : RebuildEnv)
    (σ : CacheState) (l : List AggEntry) (st : List (String × StoreTot))
    (hl : σ.sales = some l) (hlne : l ≠ []) (hst : σ.salesStoreTotals = some st)
    (H : ∀ sc cur lid, (pull_store_sales sc cur (env.fetchFor lid)).2.1 = []) :
    ((do_rebuild days inc env σ).1).sales = some l ∧
    ((do_rebuild days inc env σ).1).salesStoreTotals = some st := by
  unfold do_rebuild
  simp only []
  obtain ⟨g1, g2, g3, g4, g5⟩ :=
    pull_inventory_frame env {σ with progress := some "inventory"}
  cases hpi : pull_inventory env {σ with progress := some "inventory"} with
  | mk σ₂ r =>
    rw [hpi] at g1 g2
    have hσ₂s : σ₂.sales = some l := by rw [g1]; exact hl
    have hσ₂st : σ₂.salesStoreTotals = some st := by rw [g2]; exact hst
    cases r with
    | error e => exact ⟨hσ₂s, hσ₂st⟩
    | ok inventory =>
      simp only []
      by_cases hinv : inventory = []
      · rw [if_pos hinv]
        exact ⟨hσ₂s, hσ₂st⟩
      · rw [if_neg hinv]
        by_cases hse : env.salesExc = true
        · have hps : pull_sales_all days inc env σ₂ = (σ₂, .error ()) := by
            unfold pull_sales_all
            rw [if_pos hse]
          rw [hps]
          exact ⟨hσ₂s, hσ₂st⟩
        · have hseF : env.salesExc = false := by
            cases henv : env.salesExc
            · rfl
            · exact absurd henv hse
          obtain ⟨L, hLne, hLoc⟩ := pull_inventory_locations env
            {σ with progress := some "inventory"} inventory (by rw [hpi]) hinv
          rw [hpi] at hLoc
          have hok := pull_sales_all_nonclobber days inc env σ₂ l st L hseF
            hσ₂s hlne hσ₂st hLoc hLne H
          cases hps : pull_sales_all days inc env σ₂ with
          | mk σ₃ r' =>
            rw [hps] at hok
            have hr' : r' = Except.ok (l, st) := hok
            rw [hr']
            exact ⟨rfl, rfl⟩

/-- Claim C1, witness: a rebuild with an all-empty sales fetch over a cache
holding a non-empty aggregate leaves both cached values intact. -/
theorem C1_witness :
    ((do_rebuild 31 true wEnv σSales).1).sales = some [aggA] ∧
    ((do_rebuild 31 true wEnv σSales).1).salesStoreTotals = some stA :=
  C1_nonclobber 31 true wEnv σSales [aggA] stA rfl (by decide) rfl
    (fun sc cur lid => rfl)

/-- Claim C3, counterexample: a non-default-`wos` read is served the cached
default-parameter snapshot verbatim when the raw aggregates are missing, and
when no snapshot is cached the custom-`wos` result IS written into the
default derived-snapshot entry `taps:dashboard` — both contradicting the
claim. -/
theorem C3_counterexample :
    (3 : ℚ) ≠ WOS_DEFAULT ∧
    get_taps 3 31 0 σDash = (σDash, TapsResp.snap dashC) ∧
    (get_taps 3 31 0 σRaw).1.dashboard ≠ σRaw.dashboard := by
  refine ⟨by decide, by decide, by decide⟩

/-- Claim C3 (amended): a non-default-`wos` read recomputes inline from the
cached raw aggregates and leaves `taps:dashboard` unchanged only when both a
snapshot and the raw aggregates are cached; with the raw aggregates missing
the cached default snapshot is served as-is, and with no cached snapshot the
recomputed non-default result is itself written into `taps:dashboard`. -/
theorem C3_custom_wos (wos : ℚ) (days : ℕ) (now : ℤ) (σ : CacheState) :
    (∀ c inv s, σ.dashboard = some c → σ.inventory = some inv → inv ≠ [] →
      σ.sales = some s → wos ≠ WOS_DEFAULT →
      get_taps wos days now σ =
        (σ, .snap (run_taps inv s (σ.salesStoreTotals.getD []) wos days
          σ.inventoryTs σ.salesMeta now))) ∧
    (∀ c, σ.dashboard = some c →
      (σ.inventory = none ∨ σ.inventory = some [] ∨ σ.sales = none) →
      get_taps wos days now σ = (σ, .snap c)) ∧
    (∀ inv s, σ.dashboard = none → σ.inventory = some inv → inv ≠ [] →
      σ.sales = some s → s ≠ [] →
      get_taps wos days now σ =
        ({σ with dashboard := some (run_taps inv s (σ.salesStoreTotals.getD [])
            wos days σ.inventoryTs σ.salesMeta now)},
         .snap (run_taps inv s (σ.salesStoreTotals.getD []) wos days
          σ.inventoryTs σ.salesMeta now))) := by
  refine ⟨?_, ?_, ?_⟩
  · intro c inv s hc hi hine hs hw
    unfold get_taps
    rw [hc]
    simp only []
    rw [if_pos hw, hi, hs]
    simp only []
    rw [if_pos hine]
  · intro c hc hdis
    unfold get_taps
    rw [hc]
    simp only []
    by_cases hw : wos ≠ WOS_DEFAULT
    · rw [if_pos hw]
      rcases hdis with h | h | h
      · rw [h]
      · rw [h]
        cases σ.sales with
        | none => rfl
        | some s =>
          simp only []
          rw [if_neg (by simp)]
      · rw [h]
        cases σ.inventory <;> rfl
    · rw [if_neg hw]
  · intro inv s hd hi hine hs hsne
    unfold get_taps
    rw [hd]
    simp only []
    rw [hi, hs]
    simp only []
    rw [if_pos ⟨hine, hsne⟩]

/-- Claim C3, witness: with both a cached snapshot and cached raw aggregates,
a `wos = 3` read returns the inline recomputation and leaves the cache
untouched. -/
theorem C3_witness :
    get_taps 3 31 0 {σRaw with dashboard := some dashC} =
      ({σRaw with dashboard := some dashC},
       TapsResp.snap (run_taps [invA] [aggA] stA 3 31 none none 0)) :=
  (C3_custom_wos 3 31 0 {σRaw with dashboard := some dashC}).1 dashC [invA]
    [aggA] rfl rfl (by decide) rfl (by decide)
